import Mathlib

set_option maxHeartbeats 1000000
set_option maxRecDepth 100000

/-! Shallow embedding of the redisraft log core (src/log.c): the on-disk
framing codec, the index file, the persistent log state, the entry cache and
the log facade handed to the consensus library. Files are modelled as byte
lists; machine integers are modelled as Nat/Int (the few places where C
unsigned wrap-around could differ are noted at the definition). -/

/-- Bytes of an ASCII string literal. -/
def strB (s : String) : List Nat := s.data.map Char.toNat

/-- C-string view of a byte buffer: the bytes before the first NUL. -/
def cstr (bs : List Nat) : List Nat := bs.takeWhile (fun b => b ≠ 0)

/-- ASCII decimal digit. -/
def isDigit (b : Nat) : Bool := 48 ≤ b && b ≤ 57

/-- isspace: the bytes skipped by strtoul/strtol before the number. -/
def isSpaceB (b : Nat) : Bool := b = 32 || (9 ≤ b && b ≤ 13)

def skipWs (s : List Nat) : List Nat := s.dropWhile isSpaceB

/-- Decimal digit run: accumulate the value, return the rest (strtoul core). -/
def digitsVal : List Nat → Nat → Nat × List Nat
  | [], acc => (acc, [])
  | b :: r, acc => if isDigit b then digitsVal r (acc * 10 + (b - 48)) else (acc, b :: r)

def startsWithDigit : List Nat → Bool
  | [] => false
  | b :: _ => isDigit b

/-- strtoul over a byte buffer whose end plays the terminating NUL. With no
converted digits it returns 0 with the end pointer at the original start. A
minus sign wraps the value modulo 2^64 as on a 64-bit unsigned long. -/
def strtoulM (s : List Nat) : Nat × List Nat :=
  let t := skipWs s
  match t with
  | 43 :: u => if startsWithDigit u then digitsVal u 0 else (0, s)
  | 45 :: u =>
      if startsWithDigit u then
        let p := digitsVal u 0
        ((2 ^ 64 - p.1 % 2 ^ 64) % 2 ^ 64, p.2)
      else (0, s)
  | _ => if startsWithDigit t then digitsVal t 0 else (0, s)

/-- strtol, with the same no-conversion convention as strtoulM. -/
def strtolM (s : List Nat) : Int × List Nat :=
  let t := skipWs s
  match t with
  | 43 :: u =>
      if startsWithDigit u then (((digitsVal u 0).1 : Int), (digitsVal u 0).2) else (0, s)
  | 45 :: u =>
      if startsWithDigit u then (-((digitsVal u 0).1 : Int), (digitsVal u 0).2) else (0, s)
  | _ => if startsWithDigit t then (((digitsVal t 0).1 : Int), (digitsVal t 0).2) else (0, s)

/-- fgets core: consume up to `fuel` bytes, stopping after a newline. -/
def fgetsAux : Nat → List Nat → List Nat × List Nat
  | 0, s => ([], s)
  | _ + 1, [] => ([], [])
  | fuel + 1, b :: r =>
      if b = 10 then ([b], r)
      else
        let p := fgetsAux fuel r
        (b :: p.1, p.2)

/-- fgets with a 128-byte buffer: reads at most 127 bytes; none only at EOF. -/
def fgetsM (s : List Nat) : Option (List Nat × List Nat) :=
  match s with
  | [] => none
  | _ => some (fgetsAux 127 s)

def natDecAux : Nat → Nat → List Nat
  | 0, _ => []
  | fuel + 1, n => if n < 10 then [48 + n] else natDecAux fuel (n / 10) ++ [48 + n % 10]

/-- Decimal ASCII digits of n (printf %lu). -/
def natDec (n : Nat) : List Nat := natDecAux (n + 1) n

/-- printf %0*lu: left zero-padding to a minimum width (none when pad = 0). -/
def padDec (pad n : Nat) : List Nat :=
  if pad = 0 then natDec n
  else List.replicate (pad - (natDec n).length) 48 ++ natDec n

/-- printf %0*ld: the minus sign counts toward the padded width. -/
def padDecInt (pad : Nat) (v : Int) : List Nat :=
  if v < 0 then
    if pad = 0 then 45 :: natDec (-v).toNat
    else 45 :: (List.replicate (pad - 1 - (natDec (-v).toNat).length) 48 ++ natDec (-v).toNat)
  else padDec pad v.toNat

def crlf : List Nat := [13, 10]

/-- writeBegin: the record header line `*<N>\r\n`. -/
def writeBegin (n : Nat) : List Nat := 42 :: (natDec n ++ crlf)

/-- writeBuffer: one `$<len>\r\n<bytes>\r\n` element. -/
def writeBuffer (buf : List Nat) : List Nat :=
  36 :: (natDec buf.length ++ crlf ++ buf ++ crlf)

/-- writeUnsignedInteger: a decimal element, zero-padded when pad > 0. -/
def writeUnsignedInteger (value pad : Nat) : List Nat :=
  let payload := padDec pad value
  36 :: (natDec payload.length ++ crlf ++ payload ++ crlf)

/-- writeInteger: a signed decimal element, zero-padded when pad > 0. -/
def writeInteger (value : Int) (pad : Nat) : List Nat :=
  let payload := padDecInt pad value
  36 :: (natDec payload.length ++ crlf ++ payload ++ crlf)

/-- readEncodedLength: one fgets line `<type><len>\r\n`; strtoul after the
type byte must leave the end pointer on a CR or LF byte. -/
def readEncodedLength (ty : Nat) (s : List Nat) : Option (Nat × List Nat) :=
  match fgetsM s with
  | none => none
  | some (line, rest) =>
    match line with
    | [] => none
    | b :: tail =>
      if b ≠ ty then none
      else
        let p := strtoulM tail
        match p.2 with
        | 13 :: _ => some (p.1, rest)
        | 10 :: _ => some (p.1, rest)
        | _ => none

/-- The element loop of readRawLogEntry: a `$`-length line, then the payload
together with the trailing CRLF read back as len + 2 raw bytes (short fread
fails the record). -/
def readElements : Nat → List Nat → Option (List (List Nat) × List Nat)
  | 0, s => some ([], s)
  | n + 1, s =>
    match readEncodedLength 36 s with
    | none => none
    | some (len, rest) =>
      if rest.length < len + 2 then none
      else
        match readElements n (rest.drop (len + 2)) with
        | none => none
        | some (es, r) => some (rest.take len :: es, r)

/-- readRawLogEntry: a `*`-count line followed by that many elements. -/
def readRawLogEntry (s : List Nat) : Option (List (List Nat) × List Nat) :=
  match readEncodedLength 42 s with
  | none => none
  | some (n, rest) => readElements n rest

/-- A raft entry as stored on disk: term, id, type and opaque data bytes. -/
structure Entry where
  term : Nat
  id : Nat
  type : Nat
  data : List Nat
deriving DecidableEq, Repr

/-- strtoul of a NUL-terminated element payload; the end pointer must land on
the terminating NUL (the end of the C-string view). -/
def parseField (p : List Nat) : Option Nat :=
  let r := strtoulM (cstr p)
  if r.2 = [] then some r.1 else none

/-- strtol variant of parseField, for the signed vote field. -/
def parseFieldInt (p : List Nat) : Option Int :=
  let r := strtolM (cstr p)
  if r.2 = [] then some r.1 else none

/-- parseRaftLogEntry: exactly 5 elements; fields 1..3 numeric, field 4 raw
data bytes. The tag element 0 is not inspected here, exactly as in the
source (callers that care check it with strcasecmp). -/
def parseRaftLogEntry (es : List (List Nat)) : Option Entry :=
  match es with
  | [_, e1, e2, e3, e4] =>
    match parseField e1, parseField e2, parseField e3 with
    | some t, some i, some ty => some ⟨t, i, ty, e4⟩
    | _, _, _ => none
  | _ => none

/-- ASCII tolower. -/
def lowerB (b : Nat) : Nat := if 65 ≤ b ∧ b ≤ 90 then b + 32 else b

/-- strcasecmp(elements[0], "ENTRY") == 0. An empty element list makes the C
code read unallocated memory; modelled as a non-match. -/
def isEntryTag (es : List (List Nat)) : Bool :=
  match es with
  | [] => false
  | e0 :: _ => (cstr e0).map lowerB == strB "entry"

/-- Modelled from the spec: RAFTLOG_VERSION, the format version constant
from the header redisraft.h which is not in src/; the spec fixes version 1. -/
def RAFTLOG_VERSION : Nat := 1

/-- Modelled from the spec: RAFT_DBID_LEN, the maximum dbid length constant
from the header redisraft.h which is not in src/; the spec's dbid examples
have 32 characters. -/
def RAFT_DBID_LEN : Nat := 32

/-- In-memory log state plus the contents of its two files. idxslots is the
index file viewed as its array of 64-bit slots. -/
structure RaftLog where
  snapshot_last_idx : Nat
  snapshot_last_term : Nat
  index : Nat
  num_entries : Nat
  term : Nat
  vote : Int
  dbid : List Nat
  file : List Nat
  idxslots : List Nat
deriving DecidableEq, Repr

inductive RRStatus
  | ok
  | error
deriving DecidableEq, Repr

/-- writeLogHeader: the 7-element header record (dbid written via strlen). -/
def writeLogHeader (log : RaftLog) : List Nat :=
  writeBegin 7 ++ writeBuffer (strB "RAFTLOG") ++
  writeUnsignedInteger RAFTLOG_VERSION 4 ++ writeBuffer (cstr log.dbid) ++
  writeUnsignedInteger log.snapshot_last_term 20 ++
  writeUnsignedInteger log.snapshot_last_idx 20 ++
  writeUnsignedInteger log.term 20 ++ writeInteger log.vote 11

/-- fseek to slot k of the index file and overwrite it; seeking past the end
zero-fills the gap (sparse file regions read back as zero). -/
def setSlot (slots : List Nat) (k v : Nat) : List Nat :=
  (slots ++ List.replicate (k + 1 - slots.length) 0).set k v

/-- updateIndex: store the entry's byte offset at slot index −
snapshot_last_idx. -/
def updateIndex (log : RaftLog) (index offset : Nat) : RaftLog :=
  {log with idxslots := setSlot log.idxslots (index - log.snapshot_last_idx) offset}

/-- The bytes RaftLogWriteEntry emits for one entry record. -/
def entryRecBytes (e : Entry) : List Nat :=
  writeBegin 5 ++ writeBuffer (strB "ENTRY") ++ writeUnsignedInteger e.term 0 ++
  writeUnsignedInteger e.id 0 ++ writeUnsignedInteger e.type 0 ++ writeBuffer e.data

/-- RaftLogWriteEntry. failAt injects the failure of the n-th I/O primitive:
0..5 are the six record writes, 6 is the index-file update (RaftLogAppend
uses 7 for writeEnd); a failed write appends nothing. The offset recorded is
ftell − written, i.e. the length of the file before this record. The index
field is incremented before updateIndex, exactly as in the source, so a
failure at step 6 leaves index advanced. -/
def RaftLogWriteEntry (failAt : Option Nat) (log : RaftLog) (e : Entry) :
    RRStatus × RaftLog :=
  if failAt = some 0 then (.error, log) else
  let log1 := {log with file := log.file ++ writeBegin 5}
  if failAt = some 1 then (.error, log1) else
  let log2 := {log1 with file := log1.file ++ writeBuffer (strB "ENTRY")}
  if failAt = some 2 then (.error, log2) else
  let log3 := {log2 with file := log2.file ++ writeUnsignedInteger e.term 0}
  if failAt = some 3 then (.error, log3) else
  let log4 := {log3 with file := log3.file ++ writeUnsignedInteger e.id 0}
  if failAt = some 4 then (.error, log4) else
  let log5 := {log4 with file := log4.file ++ writeUnsignedInteger e.type 0}
  if failAt = some 5 then (.error, log5) else
  let log6 := {log5 with file := log5.file ++ writeBuffer e.data}
  let offset := log6.file.length - (entryRecBytes e).length
  let log7 := {log6 with index := log6.index + 1}
  if failAt = some 6 then (.error, log7) else
  (.ok, updateIndex log7 log7.index offset)

/-- RaftLogAppend: write the record, flush/fsync (failAt 7), then bump
num_entries only on full success. -/
def RaftLogAppend (failAt : Option Nat) (log : RaftLog) (e : Entry) :
    RRStatus × RaftLog :=
  match RaftLogWriteEntry failAt log e with
  | (.error, log1) => (.error, log1)
  | (.ok, log1) =>
    if failAt = some 7 then (.error, log1)
    else (.ok, {log1 with num_entries := log1.num_entries + 1})

/-- seekEntry: bounds-check the index, read its slot, position the log file
there. 0 (the C failure value) stands for any of: out of range, reading past
the end of the index file, or a zero slot. -/
def seekEntry (log : RaftLog) (idx : Nat) : Nat :=
  if idx ≤ log.snapshot_last_idx then 0
  else if log.snapshot_last_idx + log.num_entries < idx then 0
  else
    match log.idxslots[idx - log.snapshot_last_idx]? with
    | none => 0
    | some offset => offset

/-- RaftLogGet: seek via the index file, read one record, parse it. -/
def RaftLogGet (log : RaftLog) (idx : Nat) : Option Entry :=
  if seekEntry log idx = 0 then none
  else
    match readRawLogEntry (log.file.drop (seekEntry log idx)) with
    | none => none
    | some (es, _) => parseRaftLogEntry es

/-- The RaftLogDelete scan loop over the byte suffix: records that read back
fail end the scan with ok; a well-framed ENTRY record that does not parse
ends it with error; a record with another tag is skipped. Each successful
read consumes at least one byte, so fuel s.length + 1 cannot run out. -/
def deleteScan : Nat → List Nat → RRStatus
  | 0, _ => .ok
  | fuel + 1, s =>
    match readRawLogEntry s with
    | none => .ok
    | some (es, rest) =>
      if isEntryTag es then
        match parseRaftLogEntry es with
        | none => .error
        | some _ => deleteScan fuel rest
      else deleteScan fuel rest

/-- RaftLogDelete: seek to from_idx, scan the suffix (the per-entry notify
callback's return value is discarded by the source and is omitted here),
then unconditionally truncate the file at the seek offset and roll back
index and num_entries. C computes removed = index − from_idx + 1 in
unsigned arithmetic; the Nat form below coincides with it whenever
from_idx ≤ index + 1, which holds in every state where num_entries =
index − snapshot_last_idx. -/
def RaftLogDelete (log : RaftLog) (from_idx : Nat) : RRStatus × RaftLog :=
  let offset := seekEntry log from_idx
  if offset = 0 then (.error, log)
  else
    let s := log.file.drop offset
    let ret := deleteScan (s.length + 1) s
    let removed := log.index + 1 - from_idx
    (ret, {log with file := log.file.take offset,
                    num_entries := log.num_entries - removed,
                    index := from_idx - 1})

/-- updateLogHeader: reopen read/write and rewrite the header record in place
at byte 0; bytes past the new header are untouched. -/
def updateLogHeader (log : RaftLog) : RaftLog :=
  let hdr := writeLogHeader log
  {log with file := hdr ++ log.file.drop hdr.length}

def RaftLogSetVote (log : RaftLog) (vote : Int) : RRStatus × RaftLog :=
  (.ok, updateLogHeader {log with vote := vote})

def RaftLogSetTerm (log : RaftLog) (term : Nat) (vote : Int) : RRStatus × RaftLog :=
  (.ok, updateLogHeader {log with term := term, vote := vote})

/-- RaftLogReset: reset the boundary, drop term and vote when the new term is
older, truncate both files, write a fresh header. num_entries is left
untouched, exactly as in the source. -/
def RaftLogReset (log : RaftLog) (index term : Nat) : RRStatus × RaftLog :=
  let l1 := {log with index := index, snapshot_last_idx := index,
                      snapshot_last_term := term}
  let l2 := if term < l1.term then {l1 with term := term, vote := -1} else l1
  let l3 := {l2 with file := [], idxslots := []}
  (.ok, {l3 with file := writeLogHeader l3})

/-- RaftLogCreate: fresh state over truncated files plus a header record. -/
def RaftLogCreate (dbid : List Nat) (term index : Nat) : RaftLog :=
  let log : RaftLog :=
    { snapshot_last_idx := index, snapshot_last_term := term, index := index,
      num_entries := 0, term := 1, vote := -1,
      dbid := dbid.take RAFT_DBID_LEN, file := [], idxslots := [] }
  {log with file := writeLogHeader log}

def RaftLogFirstIdx (log : RaftLog) : Nat := log.snapshot_last_idx

def RaftLogCurrentIdx (log : RaftLog) : Nat := log.index

def RaftLogCount (log : RaftLog) : Nat := log.num_entries

/-- handleHeader: validate the 7-element header record and install its
fields. The C code mutates field by field and can fail halfway; callers
propagate the error without relying on the partial state, so the model
installs the fields all at once. -/
def handleHeader (log : RaftLog) (es : List (List Nat)) : Option RaftLog :=
  match es with
  | [e0, e1, e2, e3, e4, e5, e6] =>
    if cstr e0 ≠ strB "RAFTLOG" then none
    else
      match parseField e1 with
      | none => none
      | some ver =>
        if ver ≠ RAFTLOG_VERSION then none
        else if RAFT_DBID_LEN < (cstr e2).length then none
        else
          match parseField e3, parseField e4, parseField e5, parseFieldInt e6 with
          | some slt, some sli, some t, some v =>
            some {log with dbid := cstr e2, snapshot_last_term := slt,
                           index := sli, snapshot_last_idx := sli,
                           term := t, vote := v}
          | _, _, _, _ => none
  | _ => none

/-- The RaftLogLoadEntries read loop: ofs tracks ftell before each record; a
record that fails to read, or reads as zero elements, ends the loop keeping
the count; an ENTRY record that fails to parse, or a record with another
tag, ends it with −1. Fuel as in deleteScan. -/
def loadLoop : Nat → RaftLog → List Nat → Nat → Nat → Int × RaftLog
  | 0, log, _, _, ret => ((ret : Int), log)
  | fuel + 1, log, s, ofs, ret =>
    match readRawLogEntry s with
    | none => ((ret : Int), log)
    | some (es, rest) =>
      if es.length = 0 then ((ret : Int), log)
      else if isEntryTag es then
        match parseRaftLogEntry es with
        | none => (-1, log)
        | some _ =>
          let log1 := updateIndex {log with index := log.index + 1} (log.index + 1) ofs
          loadLoop fuel log1 rest (ofs + (s.length - rest.length)) (ret + 1)
      else (-1, log)

/-- RaftLogLoadEntries: rewind, read and install the header, then loop over
entry records; num_entries is set only when the result is positive. -/
def RaftLogLoadEntries (log : RaftLog) : Int × RaftLog :=
  let l0 := {log with term := 1, index := 0}
  match readRawLogEntry l0.file with
  | none => (-1, l0)
  | some (es, rest) =>
    match handleHeader l0 es with
    | none => (-1, l0)
    | some l1 =>
      let r := loadLoop (rest.length + 1) l1 rest (l0.file.length - rest.length) 0
      if 0 < r.1 then (r.1, {r.2 with num_entries := r.1.toNat}) else r

/-! The entry cache. -/

structure EntryCache where
  ptrs : List (Option Entry)
  size : Nat
  start : Nat
  len : Nat
  start_idx : Nat
deriving DecidableEq, Repr

def ENTRY_CACHE_INIT_SIZE : Nat := 512

def EntryCacheNew (initial_size : Nat) : EntryCache :=
  {ptrs := List.replicate initial_size none, size := initial_size,
   start := 0, len := 0, start_idx := 0}

/-- EntryCacheAppend; none models the assert(start_idx + len == idx) abort.
When len = size the ring doubles: realloc leaves the fresh upper half
unspecified (modelled none), the wrapped head ptrs[0..start) is moved to
[size, size+start) and zeroed behind, and only then is size updated. -/
def EntryCacheAppend (cache : EntryCache) (ety : Entry) (idx : Nat) :
    Option EntryCache :=
  let c := if cache.start_idx = 0 then {cache with start_idx := idx} else cache
  if c.start_idx + c.len ≠ idx then none
  else
    let c2 :=
      if c.len = c.size then
        {c with ptrs := List.replicate c.start none ++ c.ptrs.drop c.start ++
                        c.ptrs.take c.start ++ List.replicate (c.size - c.start) none,
                size := c.size * 2}
      else c
    some {c2 with ptrs := c2.ptrs.set ((c2.start + c2.len) % c2.size) (some ety),
                  len := c2.len + 1}

/-- EntryCacheGet: ring lookup for idx within [start_idx, start_idx + len). -/
def EntryCacheGet (cache : EntryCache) (idx : Nat) : Option Entry :=
  if idx < cache.start_idx then none
  else
    let relidx := idx - cache.start_idx
    if cache.len ≤ relidx then none
    else (cache.ptrs[(cache.start + relidx) % cache.size]?).join

/-- The EntryCacheDeleteHead eviction loop; it runs while first_idx >
start_idx and the cache is non-empty, so fuel len suffices. -/
def deleteHeadLoop : Nat → EntryCache → Nat → Nat → Nat × EntryCache
  | 0, c, _, deleted => (deleted, c)
  | fuel + 1, c, first_idx, deleted =>
    if c.start_idx < first_idx ∧ 0 < c.len then
      deleteHeadLoop fuel
        {c with start_idx := c.start_idx + 1,
                ptrs := c.ptrs.set c.start none,
                start := if c.size ≤ c.start + 1 then 0 else c.start + 1,
                len := c.len - 1}
        first_idx (deleted + 1)
    else (deleted, c)

/-- EntryCacheDeleteHead: −1 when first_idx is below the window, otherwise
evict the head up to first_idx and re-anchor start_idx at 0 when emptied. -/
def EntryCacheDeleteHead (cache : EntryCache) (first_idx : Nat) :
    Int × EntryCache :=
  if first_idx < cache.start_idx then (-1, cache)
  else
    let p := deleteHeadLoop cache.len cache first_idx 0
    if p.2.len = 0 then ((p.1 : Int), {p.2 with start_idx := 0})
    else ((p.1 : Int), p.2)

/-- EntryCacheDeleteTail: −1 when index is outside the held window, otherwise
null every slot from index on and shrink len. -/
def EntryCacheDeleteTail (cache : EntryCache) (index : Nat) : Int × EntryCache :=
  if cache.start_idx + cache.len ≤ index then (-1, cache)
  else if index < cache.start_idx then (-1, cache)
  else
    let deleted := cache.start_idx + cache.len - index
    let ptrs := (List.range deleted).foldl
      (fun ps r => ps.set ((cache.start + (index - cache.start_idx) + r) % cache.size) none)
      cache.ptrs
    let c : EntryCache := {cache with ptrs := ptrs, len := cache.len - deleted}
    if c.len = 0 then ((deleted : Int), {c with start_idx := 0})
    else ((deleted : Int), c)

/-! The facade presented to the consensus library. -/

structure RedisRaftCtx where
  log : RaftLog
  logcache : EntryCache
deriving DecidableEq, Repr

/-- logImplAppend: append to the log then to the cache; none models the
cache assert abort. -/
def logImplAppend (failAt : Option Nat) (rr : RedisRaftCtx) (ety : Entry) :
    Option (Int × RedisRaftCtx) :=
  match RaftLogAppend failAt rr.log ety with
  | (.error, log1) => some (-1, {rr with log := log1})
  | (.ok, log1) =>
    match EntryCacheAppend rr.logcache ety log1.index with
    | none => none
    | some c => some (0, {log := log1, logcache := c})

/-- logImplPoll: evict the cache head only; the log state is not touched. -/
def logImplPoll (rr : RedisRaftCtx) (first_idx : Nat) : Int × RedisRaftCtx :=
  (0, {rr with logcache := (EntryCacheDeleteHead rr.logcache first_idx).2})

/-- logImplPop: evict the cache tail, then delete the log suffix. -/
def logImplPop (rr : RedisRaftCtx) (from_idx : Nat) : Int × RedisRaftCtx :=
  let c := (EntryCacheDeleteTail rr.logcache from_idx).2
  let r := RaftLogDelete rr.log from_idx
  (if r.1 = RRStatus.ok then 0 else -1, {log := r.2, logcache := c})

/-- logImplGet: cache first, then the log file. -/
def logImplGet (rr : RedisRaftCtx) (idx : Nat) : Option Entry :=
  match EntryCacheGet rr.logcache idx with
  | some ety => some ety
  | none => RaftLogGet rr.log idx

def logImplReset (rr : RedisRaftCtx) (index term : Nat) : RedisRaftCtx :=
  {log := (RaftLogReset rr.log index term).2,
   logcache := EntryCacheNew ENTRY_CACHE_INIT_SIZE}

def logImplFirstIdx (rr : RedisRaftCtx) : Nat := RaftLogFirstIdx rr.log

def logImplCurrentIdx (rr : RedisRaftCtx) : Nat := RaftLogCurrentIdx rr.log

def logImplCount (rr : RedisRaftCtx) : Nat := RaftLogCount rr.log

/-! Specification-side predicates and concrete data used by the theorems. -/

/-- The cache contract: the ring geometry is sound (size matches the
allocation, start inside the ring, len within capacity) and a window
anchored at start_idx 0 is empty, since EntryCacheAppend re-anchors on
start_idx 0 (log indices are 1-based). -/
def CacheWf (c : EntryCache) : Prop :=
  c.size = c.ptrs.length ∧ 0 < c.size ∧ c.start < c.size ∧ c.len ≤ c.size ∧
  (c.start_idx = 0 → c.len = 0)

/-- A concrete two-entry cache window anchored at index 5. -/
def cacheW : EntryCache :=
  {ptrs := [some ⟨1, 1, 1, []⟩, some ⟨2, 2, 2, []⟩], size := 2, start := 0,
   len := 2, start_idx := 5}

/-- The spec's sample dbid. -/
def dbidW : List Nat := strB "0123456789abcdef01234567890abcde"

/-- A concrete facade context: a fresh log and cache with two entries
appended through logImplAppend. -/
def ctxW2 : Option RedisRaftCtx :=
  ((logImplAppend none
      {log := RaftLogCreate dbidW 0 0, logcache := EntryCacheNew 512}
      ⟨1, 100, 2, strB "x"⟩).bind
    (fun p => logImplAppend none p.2 ⟨1, 101, 2, strB "y"⟩)).map (fun p => p.2)

/-- A concrete one-entry log built by create + append. -/
def logW1 : RaftLog :=
  (RaftLogAppend none (RaftLogCreate dbidW 0 0) ⟨1, 100, 2, strB "x"⟩).2

/-- A well-framed ENTRY record whose term field "12x" is not numeric. -/
def badRecW : List Nat :=
  writeBegin 5 ++ writeBuffer (strB "ENTRY") ++ writeBuffer (strB "12x") ++
  writeUnsignedInteger 1 0 ++ writeUnsignedInteger 1 0 ++ writeBuffer []

/-- A two-entry log whose file carries a trailing unparseable ENTRY record. -/
def logW2bad : RaftLog :=
  let l2 := (RaftLogAppend none
    (RaftLogAppend none (RaftLogCreate dbidW 0 0) ⟨1, 100, 2, strB "x"⟩).2
    ⟨1, 101, 2, strB "y"⟩).2
  {l2 with file := l2.file ++ badRecW}

/-- Field bounds of a C raft_entry_t: term, id, type and data_len are at
most 64 bits wide, so every decimal the writer emits fits an fgets line. -/
def WfEntry (e : Entry) : Prop :=
  e.term < 2 ^ 64 ∧ e.id < 2 ^ 64 ∧ e.type < 2 ^ 64 ∧ e.data.length < 2 ^ 64

/-- The byte blob of a list of entry records. -/
def entriesBlob (ents : List Entry) : List Nat := (ents.map entryRecBytes).flatten

/-- Byte offset of the k-th live entry record in a file whose header is hl
bytes long. -/
def entryOffset (hl : Nat) (ents : List Entry) (k : Nat) : Nat :=
  hl + (entriesBlob (ents.take k)).length

/-- Well-formed log state over a ghost list of its live entries: the file is
some header followed by their records, the counters agree, and every live
slot of the index file holds its entry's record offset. -/
def WfLog (log : RaftLog) (hdr : List Nat) (ents : List Entry) : Prop :=
  0 < hdr.length ∧
  log.file = hdr ++ entriesBlob ents ∧
  log.num_entries = ents.length ∧
  log.index = log.snapshot_last_idx + ents.length ∧
  (∀ k, k < ents.length → log.idxslots[k + 1]? = some (entryOffset hdr.length ents k)) ∧
  (∀ e ∈ ents, WfEntry e)

/-- Header field bounds: the three unsigned 64-bit fields fit 20 digits and
the int vote fits 11 characters including its sign. -/
def HdrBounds (log : RaftLog) : Prop :=
  log.snapshot_last_term < 10 ^ 20 ∧ log.snapshot_last_idx < 10 ^ 20 ∧
  log.term < 10 ^ 20 ∧ -(10 ^ 10 : Int) < log.vote ∧ log.vote < 10 ^ 11

/-- A byte tail whose first record read fails outright or reads as zero
elements: exactly the conditions under which the load loop stops keeping
its count. -/
def readFailsOrEmpty (tail : List Nat) : Prop :=
  readRawLogEntry tail = none ∨ ∃ r, readRawLogEntry tail = some ([], r)

/-- A two-entry log built by create + append + append. -/
def logW2 : RaftLog :=
  (RaftLogAppend none
    (RaftLogAppend none (RaftLogCreate dbidW 0 0) ⟨1, 100, 2, strB "x"⟩).2
    ⟨1, 101, 2, strB "y"⟩).2

/-- A well-framed record whose tag is not ENTRY. -/
def wrongTagRecW : List Nat :=
  writeBegin 5 ++ writeBuffer (strB "WRONG") ++ writeUnsignedInteger 1 0 ++
  writeUnsignedInteger 1 0 ++ writeUnsignedInteger 1 0 ++ writeBuffer []

instance (e : Entry) : Decidable (WfEntry e) := by
  unfold WfEntry
  infer_instance

instance (log : RaftLog) (hdr : List Nat) (ents : List Entry) :
    Decidable (WfLog log hdr ents) := by
  unfold WfLog
  infer_instance

/-! Theorems: the entry cache. -/

theorem ring_pos_ne (s r l n : Nat) (hr : r < n) (hl : l < n) (hne : r ≠ l) :
    (s + r) % n ≠ (s + l) % n := by
  intro he
  rcases Nat.lt_or_ge r l with hlt | hge
  · have hd : n ∣ (s + l) - (s + r) := (Nat.modEq_iff_dvd' (by omega)).mp he
    have he2 : (s + l) - (s + r) = l - r := by omega
    rw [he2] at hd
    have := Nat.le_of_dvd (by omega) hd
    omega
  · have hlt2 : l < r := by omega
    have hd : n ∣ (s + r) - (s + l) := (Nat.modEq_iff_dvd' (by omega)).mp he.symm
    have he2 : (s + r) - (s + l) = r - l := by omega
    rw [he2] at hd
    have := Nat.le_of_dvd (by omega) hd
    omega

theorem deleteHeadLoop_spec (fuel : Nat) :
    ∀ (c : EntryCache) (fi d : Nat), c.len ≤ fuel →
    (deleteHeadLoop fuel c fi d).1 = d + min (fi - c.start_idx) c.len ∧
    (deleteHeadLoop fuel c fi d).2.len = c.len - min (fi - c.start_idx) c.len ∧
    (deleteHeadLoop fuel c fi d).2.start_idx =
      c.start_idx + min (fi - c.start_idx) c.len := by
  induction fuel with
  | zero =>
    intro c fi d hf
    have h0 : c.len = 0 := Nat.le_zero.mp hf
    simp [deleteHeadLoop, h0]
  | succ n ih =>
    intro c fi d hf
    by_cases h : c.start_idx < fi ∧ 0 < c.len
    · obtain ⟨h1, h2, h3⟩ := ih
        {c with start_idx := c.start_idx + 1,
                ptrs := c.ptrs.set c.start none,
                start := if c.size ≤ c.start + 1 then 0 else c.start + 1,
                len := c.len - 1} fi (d + 1) (by simp; omega)
      simp only [deleteHeadLoop, if_pos h]
      simp only at h1 h2 h3
      refine ⟨?_, ?_, ?_⟩ <;> simp only [h1, h2, h3] <;> omega
    · simp only [deleteHeadLoop, if_neg h]
      refine ⟨?_, ?_, ?_⟩ <;> omega

/-- C10: for first_idx at or above start_idx, EntryCacheDeleteHead never
returns the −1 sentinel: it evicts exactly min(first_idx − start_idx, len)
entries and returns that count, and a first_idx at or past the end of the
window empties the cache and re-anchors start_idx at 0 instead of failing. -/
theorem c10_delete_head_total (cache : EntryCache) (first_idx : Nat)
    (h : cache.start_idx ≤ first_idx) :
    (EntryCacheDeleteHead cache first_idx).1 ≠ -1 ∧
    (EntryCacheDeleteHead cache first_idx).1 =
      ((min (first_idx - cache.start_idx) cache.len : Nat) : Int) ∧
    (EntryCacheDeleteHead cache first_idx).2.len =
      cache.len - min (first_idx - cache.start_idx) cache.len ∧
    (cache.len ≤ first_idx - cache.start_idx →
      (EntryCacheDeleteHead cache first_idx).2.len = 0 ∧
      (EntryCacheDeleteHead cache first_idx).2.start_idx = 0) := by
  obtain ⟨h1, h2, h3⟩ := deleteHeadLoop_spec cache.len cache first_idx 0 le_rfl
  unfold EntryCacheDeleteHead
  rw [if_neg (by omega)]
  by_cases hz : (deleteHeadLoop cache.len cache first_idx 0).2.len = 0
  · rw [if_pos hz]
    refine ⟨by omega, by simp only [h1]; omega, by simp only [hz]; omega, fun _ => ⟨by simp [hz], rfl⟩⟩
  · rw [if_neg hz]
    refine ⟨by omega, by simp only [h1]; omega, h2, fun hb => absurd ?_ hz⟩
    omega

/-- C10 witness: a concrete cache, evicting past the end of the window. -/
theorem c10_delete_head_total_witness :
    cacheW.start_idx ≤ 100 ∧
    ((EntryCacheDeleteHead cacheW 100).1 ≠ -1 ∧
     (EntryCacheDeleteHead cacheW 100).1 =
       ((min (100 - cacheW.start_idx) cacheW.len : Nat) : Int) ∧
     (EntryCacheDeleteHead cacheW 100).2.len =
       cacheW.len - min (100 - cacheW.start_idx) cacheW.len ∧
     (cacheW.len ≤ 100 - cacheW.start_idx →
       (EntryCacheDeleteHead cacheW 100).2.len = 0 ∧
       (EntryCacheDeleteHead cacheW 100).2.start_idx = 0)) :=
  ⟨by decide, c10_delete_head_total cacheW 100 (by decide)⟩

theorem entryCacheAppend_eq_no_grow (c : EntryCache) (e : Entry)
    (hsi : c.start_idx ≠ 0) (hne : c.len ≠ c.size) :
    EntryCacheAppend c e (c.start_idx + c.len) =
      some {c with ptrs := c.ptrs.set ((c.start + c.len) % c.size) (some e),
                   len := c.len + 1} := by
  simp [EntryCacheAppend, hsi, hne]

theorem entryCacheAppend_eq_grow (c : EntryCache) (e : Entry)
    (hsi : c.start_idx ≠ 0) (heq : c.len = c.size) :
    EntryCacheAppend c e (c.start_idx + c.len) =
      some {c with ptrs := (List.replicate c.start none ++ c.ptrs.drop c.start ++
                            c.ptrs.take c.start ++
                            List.replicate (c.size - c.start) none).set
                             ((c.start + c.len) % (c.size * 2)) (some e),
                   size := c.size * 2, len := c.len + 1} := by
  simp [EntryCacheAppend, hsi, heq]

theorem grown_ring_lookup (p : List (Option Entry)) (n st r : Nat)
    (hlen : p.length = n) (hst : st < n) (hr : r < n) :
    (List.replicate st (none : Option Entry) ++ p.drop st ++ p.take st ++
      List.replicate (n - st) none)[st + r]? = p[(st + r) % n]? := by
  have hA : (List.replicate st (none : Option Entry)).length = st := by
    simp
  have hB : (p.drop st).length = n - st := by simp [hlen]
  have hC : (p.take st).length = st := by
    rw [List.length_take_of_le (by omega)]
  by_cases hc : st + r < n
  · rw [Nat.mod_eq_of_lt hc]
    rw [List.getElem?_append_left (by simp [hA, hB, hC]; omega)]
    rw [List.getElem?_append_left (by simp [hA, hB]; omega)]
    rw [List.getElem?_append_right (by omega : (List.replicate st (none : Option Entry)).length ≤ st + r)]
    rw [hA, Nat.add_sub_cancel_left, List.getElem?_drop]
  · have hmod : (st + r) % n = st + r - n := by
      rw [Nat.mod_eq_sub_mod (by omega), Nat.mod_eq_of_lt (by omega)]
    rw [hmod]
    rw [List.getElem?_append_left (by simp [hA, hB, hC]; omega)]
    rw [List.getElem?_append_right (by simp [hA, hB]; omega)]
    have hidx : st + r - (List.replicate st (none : Option Entry) ++ p.drop st).length
        = st + r - n := by simp [hA, hB]; omega
    rw [hidx, List.getElem?_take_of_lt (by omega)]

/-- C7: under the cache contract, EntryCacheAppend of the next index
idx = start_idx + len — including the len = size case that doubles the
capacity and relocates the wrapped region — succeeds, preserves the
contract, serves the new index from the cache, and leaves EntryCacheGet
unchanged at every previously visible index. -/
theorem c7_cache_append_contract (c : EntryCache) (e : Entry)
    (hw : CacheWf c) (hpos : 0 < c.start_idx + c.len) :
    ∃ c2, EntryCacheAppend c e (c.start_idx + c.len) = some c2 ∧ CacheWf c2 ∧
      EntryCacheGet c2 (c.start_idx + c.len) = some e ∧
      ∀ k, k < c.start_idx + c.len → EntryCacheGet c2 k = EntryCacheGet c k := by
  obtain ⟨hsz, hn, hst, hlen, hanchor⟩ := hw
  have hsi : c.start_idx ≠ 0 := by
    intro h0
    have := hanchor h0
    omega
  by_cases hgrow : c.len = c.size
  · -- doubling case
    have hp2len : (List.replicate c.start (none : Option Entry) ++ c.ptrs.drop c.start ++
        c.ptrs.take c.start ++ List.replicate (c.size - c.start) none).length
        = c.size * 2 := by
      simp [List.length_take_of_le (by omega : c.start ≤ c.ptrs.length), ← hsz]
      omega
    have hpos2 : (c.start + c.len) % (c.size * 2) = c.start + c.size := by
      rw [hgrow, Nat.mod_eq_of_lt (by omega)]
    refine ⟨_, entryCacheAppend_eq_grow c e hsi hgrow, ?_, ?_, ?_⟩
    · refine ⟨?_, ?_, ?_, ?_, ?_⟩
      · dsimp only
        rw [List.length_set, hp2len]
      · dsimp only
        omega
      · dsimp only
        omega
      · dsimp only
        omega
      · dsimp only
        exact fun h0 => absurd h0 hsi
    · unfold EntryCacheGet
      dsimp only
      simp only [Nat.add_sub_cancel_left]
      rw [if_neg (by omega), if_neg (by omega)]
      rw [List.getElem?_set_self (by rw [hp2len, hpos2]; omega)]
      rfl
    · intro k hk
      unfold EntryCacheGet
      dsimp only
      by_cases hklo : k < c.start_idx
      · rw [if_pos hklo, if_pos hklo]
      · rw [if_neg hklo, if_neg hklo]
        have hr : k - c.start_idx < c.len := by omega
        rw [if_neg (by omega), if_neg (by omega)]
        have hne : (c.start + c.len) % (c.size * 2) ≠
            (c.start + (k - c.start_idx)) % (c.size * 2) := by
          rw [hpos2, Nat.mod_eq_of_lt (by omega)]
          omega
        rw [List.getElem?_set_ne hne]
        rw [Nat.mod_eq_of_lt (show c.start + (k - c.start_idx) < c.size * 2 by omega)]
        rw [grown_ring_lookup c.ptrs c.size c.start (k - c.start_idx) hsz.symm hst (by omega)]
  · have hlt : c.len < c.size := by omega
    refine ⟨_, entryCacheAppend_eq_no_grow c e hsi hgrow, ?_, ?_, ?_⟩
    · refine ⟨?_, ?_, ?_, ?_, ?_⟩
      · dsimp only
        rw [List.length_set]
        exact hsz
      · dsimp only
        omega
      · dsimp only
        omega
      · dsimp only
        omega
      · dsimp only
        exact fun h0 => absurd h0 hsi
    · unfold EntryCacheGet
      dsimp only
      simp only [Nat.add_sub_cancel_left]
      rw [if_neg (by omega), if_neg (by omega)]
      rw [List.getElem?_set_self (by
        have := Nat.mod_lt (c.start + c.len) (show 0 < c.size by omega)
        omega)]
      rfl
    · intro k hk
      unfold EntryCacheGet
      dsimp only
      by_cases hklo : k < c.start_idx
      · rw [if_pos hklo, if_pos hklo]
      · rw [if_neg hklo, if_neg hklo]
        have hr : k - c.start_idx < c.len := by omega
        rw [if_neg (by omega), if_neg (by omega)]
        have hne : (c.start + c.len) % c.size ≠ (c.start + (k - c.start_idx)) % c.size :=
          fun he => ring_pos_ne c.start (k - c.start_idx) c.len c.size (by omega) hlt
            (by omega) he.symm
        rw [List.getElem?_set_ne hne]

/-- C7 witness: appending index 7 to the full two-slot window holding
indices 5 and 6 exercises the doubling path. -/
theorem c7_cache_append_contract_witness :
    CacheWf cacheW ∧ 0 < cacheW.start_idx + cacheW.len ∧
    (∃ c2, EntryCacheAppend cacheW ⟨3, 3, 3, []⟩ (cacheW.start_idx + cacheW.len) = some c2 ∧
      CacheWf c2 ∧
      EntryCacheGet c2 (cacheW.start_idx + cacheW.len) = some ⟨3, 3, 3, []⟩ ∧
      ∀ k, k < cacheW.start_idx + cacheW.len →
        EntryCacheGet c2 k = EntryCacheGet cacheW k) :=
  ⟨⟨by decide, by decide, by decide, by decide, by decide⟩, by decide,
   c7_cache_append_contract cacheW ⟨3, 3, 3, []⟩
     ⟨by decide, by decide, by decide, by decide, by decide⟩ (by decide)⟩

/-- C3 counterexample: on a log created at snapshot index 0 with entries
appended at 1 and 2, the facade poll of first_idx 2 leaves first_idx at 0
(not 2) and a facade get of index 1 still returns the entry from the log
file, contradicting the claim that poll advances snapshot_last_idx and
makes every lower get return nothing. -/
theorem c3_poll_counterexample :
    (ctxW2.map (fun c => logImplFirstIdx (logImplPoll c 2).2) = some 0) ∧
    (ctxW2.map (fun c => logImplGet (logImplPoll c 2).2 1) =
      some (some ⟨1, 100, 2, strB "x"⟩)) ∧ (0 : Nat) ≠ 2 :=
  ⟨by rfl, by rfl, by decide⟩

/-- C3 amended: logImplPoll(first_idx) touches only the cache: the log state
and hence RaftLogFirstIdx are unchanged, and every cache lookup below
first_idx misses afterwards; a facade get of such an index falls through to
the log file, which still serves any index above snapshot_last_idx. -/
theorem c3_poll_cache_only (rr : RedisRaftCtx) (k : Nat) :
    (logImplPoll rr k).2.log = rr.log ∧
    logImplFirstIdx (logImplPoll rr k).2 = logImplFirstIdx rr ∧
    ∀ j, j < k → EntryCacheGet (logImplPoll rr k).2.logcache j = none := by
  refine ⟨rfl, rfl, ?_⟩
  intro j hj
  unfold logImplPoll EntryCacheGet
  dsimp only
  by_cases hk : k < rr.logcache.start_idx
  · unfold EntryCacheDeleteHead
    rw [if_pos hk]
    dsimp only
    rw [if_pos (by omega)]
  · obtain ⟨h1, h2, h3⟩ := deleteHeadLoop_spec rr.logcache.len rr.logcache k 0 le_rfl
    unfold EntryCacheDeleteHead
    rw [if_neg hk]
    dsimp only
    by_cases hz : (deleteHeadLoop rr.logcache.len rr.logcache k 0).2.len = 0
    · rw [if_pos hz]
      dsimp only
      rw [if_neg (by omega)]
      rw [if_pos (by omega)]
    · rw [if_neg hz]
      dsimp only
      rw [if_pos (by omega)]

/-! Theorems: error paths of reset, append and delete. -/

/-- C2: RaftLogReset does not clear num_entries. Resetting a one-entry log
to snapshot index 5 leaves num_entries at 1 while index − snapshot_last_idx
is 0, so the invariant num_entries = index − snapshot_last_idx that every
other facade mutation maintains is broken by reset: the reset code slips by
leaving the count of a log whose files it has just truncated. -/
theorem c2_reset_leaves_num_entries :
    (RaftLogReset logW1 5 1).2.num_entries = 1 ∧
    (RaftLogReset logW1 5 1).2.index - (RaftLogReset logW1 5 1).2.snapshot_last_idx = 0 ∧
    (1 : Nat) ≠ 0 :=
  ⟨by rfl, by rfl, by decide⟩

/-- C4 counterexample: with the index-file update (failure point 6) failing,
RaftLogAppend returns an error yet leaves index incremented, against the
claim that an erroring append leaves index and num_entries unchanged. -/
theorem c4_append_error_counterexample :
    (RaftLogAppend (some 6) logW1 ⟨2, 101, 0, []⟩).1 = RRStatus.error ∧
    (RaftLogAppend (some 6) logW1 ⟨2, 101, 0, []⟩).2.index = logW1.index + 1 ∧
    logW1.index + 1 ≠ logW1.index :=
  ⟨by rfl, by rfl, by decide⟩

/-- C4 amended: an erroring append never advances num_entries, and a failure
while writing the entry record itself (points 0..5) leaves index unchanged
too; but a failure at the index-file update (6) or at flush/fsync (7)
returns the error with index already incremented. -/
theorem c4_append_error_state (log : RaftLog) (e : Entry) (j : Nat) (hj : j ≤ 7) :
    (RaftLogAppend (some j) log e).1 = RRStatus.error ∧
    (RaftLogAppend (some j) log e).2.num_entries = log.num_entries ∧
    (j ≤ 5 → (RaftLogAppend (some j) log e).2.index = log.index) ∧
    (6 ≤ j → (RaftLogAppend (some j) log e).2.index = log.index + 1) := by
  interval_cases j <;>
    refine ⟨?_, ?_, ?_, ?_⟩ <;>
      simp [RaftLogAppend, RaftLogWriteEntry, updateIndex]

/-- C4 witness: the amended statement applied at failure point 6 on a
concrete one-entry log. -/
theorem c4_append_error_state_witness :
    (6 : Nat) ≤ 7 ∧
    ((RaftLogAppend (some 6) logW1 ⟨2, 101, 0, []⟩).1 = RRStatus.error ∧
     (RaftLogAppend (some 6) logW1 ⟨2, 101, 0, []⟩).2.num_entries = logW1.num_entries ∧
     ((6 : Nat) ≤ 5 → (RaftLogAppend (some 6) logW1 ⟨2, 101, 0, []⟩).2.index = logW1.index) ∧
     ((6 : Nat) ≤ 6 → (RaftLogAppend (some 6) logW1 ⟨2, 101, 0, []⟩).2.index = logW1.index + 1)) :=
  ⟨by decide, c4_append_error_state logW1 ⟨2, 101, 0, []⟩ 6 (by decide)⟩

/-- C9: when RaftLogDelete seeks to from_idx successfully but the suffix
scan ends with a parse error, the file truncation at the seek offset and
the rollback of index and num_entries are still performed, and the error
status is returned with that mutated state: the deletion is not rolled
back on this path. -/
theorem c9_delete_error_still_truncates (log : RaftLog) (from_idx : Nat)
    (hofs : seekEntry log from_idx ≠ 0)
    (hscan : deleteScan ((log.file.drop (seekEntry log from_idx)).length + 1)
        (log.file.drop (seekEntry log from_idx)) = RRStatus.error) :
    RaftLogDelete log from_idx =
      (RRStatus.error,
       {log with file := log.file.take (seekEntry log from_idx),
                 num_entries := log.num_entries - (log.index + 1 - from_idx),
                 index := from_idx - 1}) := by
  unfold RaftLogDelete
  dsimp only
  rw [if_neg hofs, hscan]

/-- C9 witness: deleting from index 2 of a two-entry log whose file carries
a trailing unparseable ENTRY record. -/
theorem c9_delete_error_still_truncates_witness :
    seekEntry logW2bad 2 ≠ 0 ∧
    deleteScan ((logW2bad.file.drop (seekEntry logW2bad 2)).length + 1)
      (logW2bad.file.drop (seekEntry logW2bad 2)) = RRStatus.error ∧
    RaftLogDelete logW2bad 2 =
      (RRStatus.error,
       {logW2bad with file := logW2bad.file.take (seekEntry logW2bad 2),
                      num_entries := logW2bad.num_entries - (logW2bad.index + 1 - 2),
                      index := 2 - 1}) :=
  ⟨by decide, by rfl, c9_delete_error_still_truncates logW2bad 2 (by decide) (by rfl)⟩

/-! Theorems: decimal serialization round-trips. -/

theorem natDecAux_irrel (n : Nat) : ∀ f g, n < f → n < g → natDecAux f n = natDecAux g n := by
  induction n using Nat.strong_induction_on with
  | _ n ih =>
    intro f g hf hg
    match f, g with
    | f + 1, g + 1 =>
      simp only [natDecAux]
      by_cases h10 : n < 10
      · simp [h10]
      · simp only [if_neg h10]
        rw [ih (n / 10) (by omega) f g (by omega) (by omega)]

theorem isDigit_iff (b : Nat) : isDigit b = true ↔ 48 ≤ b ∧ b ≤ 57 := by
  simp [isDigit]

theorem natDec_eq (n : Nat) : natDec n = if n < 10 then [48 + n]
    else natDec (n / 10) ++ [48 + n % 10] := by
  conv_lhs => unfold natDec
  simp only [natDecAux]
  by_cases h10 : n < 10
  · simp [h10]
  · simp only [if_neg h10]
    rw [natDecAux_irrel (n / 10) n (n / 10 + 1) (by omega) (by omega)]
    rfl

theorem natDec_digits (n : Nat) : ∀ b ∈ natDec n, isDigit b = true := by
  induction n using Nat.strong_induction_on with
  | _ n ih =>
    rw [natDec_eq]
    by_cases h10 : n < 10
    · simp only [if_pos h10, List.mem_singleton]
      rintro b rfl
      rw [isDigit_iff]
      omega
    · simp only [if_neg h10, List.mem_append]
      rintro b (hb | hb)
      · exact ih (n / 10) (by omega) b hb
      · simp only [List.mem_singleton] at hb
        subst hb
        rw [isDigit_iff]
        omega

theorem natDec_ne_nil (n : Nat) : natDec n ≠ [] := by
  rw [natDec_eq]
  by_cases h10 : n < 10 <;> simp [h10]

theorem natDec_len_le (k : Nat) : ∀ n, n < 10 ^ k → 1 ≤ k → (natDec n).length ≤ k := by
  induction k with
  | zero => omega
  | succ k ih =>
    intro n hn _
    rw [natDec_eq]
    by_cases h10 : n < 10
    · rw [if_pos h10]
      simp only [List.length_singleton]
      omega
    · have hk1 : 1 ≤ k := by
        by_contra hk0
        have : k = 0 := by omega
        subst this
        simp [pow_succ] at hn
        omega
      have hdiv : n / 10 < 10 ^ k := by
        rw [Nat.div_lt_iff_lt_mul (by omega)]
        calc n < 10 ^ (k + 1) := hn
          _ = 10 ^ k * 10 := by rw [pow_succ]
      simp only [if_neg h10, List.length_append, List.length_singleton]
      have := ih (n / 10) hdiv hk1
      omega

theorem digitsVal_no_digit (t : List Nat) (a : Nat) (ht : startsWithDigit t = false) :
    digitsVal t a = (a, t) := by
  cases t with
  | nil => simp [digitsVal]
  | cons b bs =>
    simp only [startsWithDigit] at ht
    simp [digitsVal, ht]

theorem digitsVal_all_digits (xs : List Nat) : ∀ (t : List Nat) (a : Nat),
    (∀ b ∈ xs, isDigit b = true) → startsWithDigit t = false →
    digitsVal (xs ++ t) a = (xs.foldl (fun acc b => acc * 10 + (b - 48)) a, t) := by
  induction xs with
  | nil =>
    intro t a _ ht
    simp [digitsVal_no_digit t a ht]
  | cons x xs ih =>
    intro t a hx ht
    simp only [List.cons_append, digitsVal]
    rw [if_pos (hx x (by simp))]
    show digitsVal (xs ++ t) (a * 10 + (x - 48)) = _
    rw [ih t _ (fun b hb => hx b (by simp [hb])) ht]
    simp

theorem foldl_natDec (n : Nat) : ∀ a, (natDec n).foldl (fun acc b => acc * 10 + (b - 48)) a
    = a * 10 ^ (natDec n).length + n := by
  induction n using Nat.strong_induction_on with
  | _ n ih =>
    intro a
    rw [natDec_eq]
    by_cases h10 : n < 10
    · simp only [if_pos h10, List.foldl_cons, List.foldl_nil, List.length_singleton]
      omega
    · simp only [if_neg h10, List.foldl_append, List.foldl_cons, List.foldl_nil,
        List.length_append, List.length_singleton]
      rw [ih (n / 10) (by omega) a]
      have hdm : 10 * (n / 10) + n % 10 = n := Nat.div_add_mod n 10
      calc (a * 10 ^ (natDec (n / 10)).length + n / 10) * 10 + (48 + n % 10 - 48)
          = (a * 10 ^ (natDec (n / 10)).length + n / 10) * 10 + n % 10 := by
            rw [Nat.add_sub_cancel_left]
        _ = a * (10 ^ (natDec (n / 10)).length * 10) + (10 * (n / 10) + n % 10) := by ring
        _ = a * 10 ^ ((natDec (n / 10)).length + 1) + n := by rw [hdm, pow_succ]

theorem foldl_zeros (z : Nat) :
    (List.replicate z 48).foldl (fun acc b => acc * 10 + (b - 48)) 0 = 0 := by
  induction z with
  | zero => simp
  | succ z ih => simpa [List.replicate_succ]

theorem padDec_digits (p n : Nat) : ∀ b ∈ padDec p n, isDigit b = true := by
  unfold padDec
  by_cases hp : p = 0
  · simp only [if_pos hp]
    exact natDec_digits n
  · simp only [if_neg hp, List.mem_append]
    rintro b (hb | hb)
    · simp only [List.mem_replicate] at hb
      rw [hb.2, isDigit_iff]
      omega
    · exact natDec_digits n b hb

theorem padDec_ne_nil (p n : Nat) : padDec p n ≠ [] := by
  unfold padDec
  by_cases hp : p = 0
  · simp only [if_pos hp]
    exact natDec_ne_nil n
  · simp only [if_neg hp]
    intro h
    rcases List.append_eq_nil.mp h with ⟨_, h2⟩
    exact natDec_ne_nil n h2

theorem foldl_padDec (p n : Nat) :
    (padDec p n).foldl (fun acc b => acc * 10 + (b - 48)) 0 = n := by
  unfold padDec
  by_cases hp : p = 0
  · simp only [if_pos hp]
    have := foldl_natDec n 0
    simpa using this
  · simp only [if_neg hp, List.foldl_append, foldl_zeros]
    have := foldl_natDec n 0
    simpa using this

theorem padDec_length (p n : Nat) (hp : p ≠ 0) (hn : (natDec n).length ≤ p) :
    (padDec p n).length = p := by
  unfold padDec
  simp only [if_neg hp, List.length_append, List.length_replicate]
  omega

/-! Theorems: framing codec round-trips. -/

theorem fgetsAux_line (f : Nat) : ∀ (pre rest : List Nat), pre.length + 1 ≤ f →
    (∀ b ∈ pre, b ≠ 10) → fgetsAux f (pre ++ 10 :: rest) = (pre ++ [10], rest) := by
  induction f with
  | zero =>
    intro pre rest h _
    omega
  | succ f ih =>
    intro pre rest h hpre
    cases pre with
    | nil => simp [fgetsAux]
    | cons b bs =>
      simp only [List.cons_append, fgetsAux]
      rw [if_neg (hpre b (by simp))]
      show (b :: (fgetsAux f (bs ++ 10 :: rest)).1, (fgetsAux f (bs ++ 10 :: rest)).2) = _
      rw [ih bs rest (by simp at h ⊢; omega) (fun x hx => hpre x (by simp [hx]))]

theorem fgetsM_line (pre rest : List Nat) (h : pre.length + 1 ≤ 127)
    (hpre : ∀ b ∈ pre, b ≠ 10) :
    fgetsM (pre ++ 10 :: rest) = some (pre ++ [10], rest) := by
  cases pre with
  | nil =>
    show fgetsM (10 :: rest) = _
    unfold fgetsM
    simp [fgetsAux]
  | cons b bs =>
    show fgetsM (b :: (bs ++ 10 :: rest)) = _
    unfold fgetsM
    rw [show b :: (bs ++ 10 :: rest) = (b :: bs) ++ 10 :: rest from rfl]
    rw [fgetsAux_line 127 (b :: bs) rest h hpre]
    rfl

theorem strtoulM_digits (s t : List Nat) (hs : s ≠ []) (hd : ∀ b ∈ s, isDigit b = true)
    (ht : startsWithDigit t = false) :
    strtoulM (s ++ t) = (s.foldl (fun acc b => acc * 10 + (b - 48)) 0, t) := by
  obtain ⟨b, u, rfl⟩ : ∃ b u, s = b :: u := by
    cases s with
    | nil => exact absurd rfl hs
    | cons b u => exact ⟨b, u, rfl⟩
  have hb : 48 ≤ b ∧ b ≤ 57 := (isDigit_iff b).mp (hd b (by simp))
  have hskip : skipWs (b :: (u ++ t)) = b :: (u ++ t) := by
    unfold skipWs
    rw [List.dropWhile_cons_of_neg]
    simp only [isSpaceB, Bool.or_eq_true, decide_eq_true_eq, Bool.and_eq_true, not_or,
      not_and]
    omega
  show strtoulM (b :: (u ++ t)) = _
  unfold strtoulM
  rw [hskip]
  dsimp only
  split
  · rename_i heq
    injection heq with h1 _
    omega
  · rename_i heq
    injection heq with h1 _
    omega
  · rename_i hne43 hne45
    rw [if_pos (by simp [startsWithDigit, isDigit]; omega)]
    have := digitsVal_all_digits (b :: u) t 0 hd ht
    simpa using this

theorem strtoulM_padDec (p n : Nat) (t : List Nat) (ht : startsWithDigit t = false) :
    strtoulM (padDec p n ++ t) = (n, t) := by
  rw [strtoulM_digits _ t (padDec_ne_nil p n) (padDec_digits p n) ht, foldl_padDec]

theorem readEncodedLength_round (ty L : Nat) (r2 : List Nat)
    (hty : ty ≠ 10) (hL : (natDec L).length + 3 ≤ 127) :
    readEncodedLength ty (ty :: (natDec L ++ 13 :: 10 :: r2)) = some (L, r2) := by
  unfold readEncodedLength
  have hshape : ty :: (natDec L ++ 13 :: 10 :: r2) =
      (ty :: (natDec L ++ [13])) ++ 10 :: r2 := by simp
  rw [hshape, fgetsM_line _ _ (by simp; omega) ?hpre]
  case hpre =>
    intro b hb
    simp only [List.mem_cons, List.mem_append, List.mem_singleton, List.not_mem_nil,
      or_false] at hb
    rcases hb with rfl | hb | rfl
    · exact hty
    · have := (isDigit_iff b).mp (natDec_digits L b hb)
      omega
    · omega
  show (match (ty :: (natDec L ++ [13])) ++ [10] with
    | [] => none
    | b :: tail =>
      if b ≠ ty then none
      else
        let p := strtoulM tail
        match p.2 with
        | 13 :: _ => some (p.1, r2)
        | 10 :: _ => some (p.1, r2)
        | _ => none) = some (L, r2)
  rw [show (ty :: (natDec L ++ [13])) ++ [10] = ty :: (natDec L ++ [13, 10]) by simp]
  rw [show (match ty :: (natDec L ++ [13, 10]) with
    | [] => none
    | b :: tail =>
      if b ≠ ty then none
      else
        let p := strtoulM tail
        match p.2 with
        | 13 :: _ => some (p.1, r2)
        | 10 :: _ => some (p.1, r2)
        | _ => none) =
      (if ty ≠ ty then none
       else
        let p := strtoulM (natDec L ++ [13, 10])
        match p.2 with
        | 13 :: _ => some (p.1, r2)
        | 10 :: _ => some (p.1, r2)
        | _ => none) from rfl]
  rw [if_neg (by simp)]
  rw [strtoulM_digits (natDec L) [13, 10] (natDec_ne_nil L) (natDec_digits L) rfl]
  have hfold : (natDec L).foldl (fun acc b => acc * 10 + (b - 48)) 0 = L := by
    simpa using foldl_natDec L 0
  rw [hfold]

theorem readElements_cons (n : Nat) (bs rest : List Nat) (es : List (List Nat)) (r : List Nat)
    (hL : (natDec bs.length).length + 3 ≤ 127)
    (hrec : readElements n rest = some (es, r)) :
    readElements (n + 1) (writeBuffer bs ++ rest) = some (bs :: es, r) := by
  have hshape : writeBuffer bs ++ rest =
      36 :: (natDec bs.length ++ 13 :: 10 :: (bs ++ 13 :: 10 :: rest)) := by
    simp [writeBuffer, crlf]
  rw [hshape]
  show (match readEncodedLength 36 (36 :: (natDec bs.length ++ 13 :: 10 :: (bs ++ 13 :: 10 :: rest))) with
    | none => none
    | some (len, rest2) =>
      if rest2.length < len + 2 then none
      else
        match readElements n (rest2.drop (len + 2)) with
        | none => none
        | some (es2, r2) => some (rest2.take len :: es2, r2)) = some (bs :: es, r)
  rw [readEncodedLength_round 36 bs.length _ (by omega) hL]
  have htake : (bs ++ 13 :: 10 :: rest).take bs.length = bs :=
    List.take_left bs (13 :: 10 :: rest)
  have hdrop : (bs ++ 13 :: 10 :: rest).drop (bs.length + 2) = rest := by
    rw [show bs ++ 13 :: 10 :: rest = (bs ++ [13, 10]) ++ rest by simp]
    rw [show bs.length + 2 = (bs ++ [13, 10]).length by simp]
    exact List.drop_left _ _
  show (if (bs ++ 13 :: 10 :: rest).length < bs.length + 2 then none
    else
      match readElements n ((bs ++ 13 :: 10 :: rest).drop (bs.length + 2)) with
      | none => none
      | some (es2, r2) => some ((bs ++ 13 :: 10 :: rest).take bs.length :: es2, r2)) =
    some (bs :: es, r)
  rw [if_neg (by simp)]
  rw [htake, hdrop, hrec]

theorem cstr_no_nul (s : List Nat) (h : ∀ b ∈ s, b ≠ 0) : cstr s = s := by
  induction s with
  | nil => rfl
  | cons b bs ih =>
    unfold cstr
    rw [List.takeWhile_cons_of_pos (by simp [h b (by simp)])]
    have := ih (fun x hx => h x (by simp [hx]))
    unfold cstr at this
    rw [this]

theorem parseField_padDec (p n : Nat) : parseField (padDec p n) = some n := by
  unfold parseField
  rw [cstr_no_nul _ (fun b hb => by
    have := (isDigit_iff b).mp (padDec_digits p n b hb)
    omega)]
  have hs := strtoulM_digits (padDec p n) [] (padDec_ne_nil p n) (padDec_digits p n) rfl
  rw [List.append_nil] at hs
  rw [hs]
  simp [foldl_padDec]

theorem parseField_natDec (n : Nat) : parseField (natDec n) = some n :=
  parseField_padDec 0 n

theorem parseRaftLogEntry_round (t i ty : Nat) (d : List Nat) :
    parseRaftLogEntry [strB "ENTRY", natDec t, natDec i, natDec ty, d] =
      some ⟨t, i, ty, d⟩ := by
  simp [parseRaftLogEntry, parseField_natDec]

theorem entry_record_round (e : Entry) (rest : List Nat) (he : WfEntry e) :
    readRawLogEntry (entryRecBytes e ++ rest) =
      some ([strB "ENTRY", natDec e.term, natDec e.id, natDec e.type, e.data], rest) := by
  obtain ⟨ht, hi, hy, hd⟩ := he
  have hlen20 : ∀ m : Nat, m < 2 ^ 64 → (natDec m).length ≤ 20 := fun m hm =>
    natDec_len_le 20 m (by
      calc m < 2 ^ 64 := hm
        _ < 10 ^ 20 := by norm_num) (by omega)
  have hline64 : ∀ m : Nat, m < 2 ^ 64 → (natDec m).length + 3 ≤ 127 := fun m hm => by
    have := hlen20 m hm
    omega
  have hlineDigits : ∀ m : Nat, m < 2 ^ 64 → (natDec (natDec m).length).length + 3 ≤ 127 := by
    intro m hm
    have h1 := hlen20 m hm
    have h2 := natDec_len_le 2 (natDec m).length (by omega) (by omega)
    omega
  have h0 : readElements 0 rest = some ([], rest) := rfl
  have h1 : readElements 1 (writeBuffer e.data ++ rest) = some ([e.data], rest) :=
    readElements_cons 0 e.data rest [] rest (hline64 _ hd) h0
  have h2 : readElements 2 (writeBuffer (natDec e.type) ++ (writeBuffer e.data ++ rest)) =
      some ([natDec e.type, e.data], rest) :=
    readElements_cons 1 (natDec e.type) _ _ _ (hlineDigits _ hy) h1
  have h3 : readElements 3 (writeBuffer (natDec e.id) ++
      (writeBuffer (natDec e.type) ++ (writeBuffer e.data ++ rest))) =
      some ([natDec e.id, natDec e.type, e.data], rest) :=
    readElements_cons 2 (natDec e.id) _ _ _ (hlineDigits _ hi) h2
  have h4 : readElements 4 (writeBuffer (natDec e.term) ++ (writeBuffer (natDec e.id) ++
      (writeBuffer (natDec e.type) ++ (writeBuffer e.data ++ rest)))) =
      some ([natDec e.term, natDec e.id, natDec e.type, e.data], rest) :=
    readElements_cons 3 (natDec e.term) _ _ _ (hlineDigits _ ht) h3
  have h5 : readElements 5 (writeBuffer (strB "ENTRY") ++ (writeBuffer (natDec e.term) ++
      (writeBuffer (natDec e.id) ++ (writeBuffer (natDec e.type) ++
        (writeBuffer e.data ++ rest))))) =
      some ([strB "ENTRY", natDec e.term, natDec e.id, natDec e.type, e.data], rest) :=
    readElements_cons 4 (strB "ENTRY") _ _ _ (by decide) h4
  have hshape : entryRecBytes e ++ rest =
      42 :: (natDec 5 ++ 13 :: 10 :: (writeBuffer (strB "ENTRY") ++
        (writeBuffer (natDec e.term) ++ (writeBuffer (natDec e.id) ++
          (writeBuffer (natDec e.type) ++ (writeBuffer e.data ++ rest)))))) := by
    simp [entryRecBytes, writeBegin, writeUnsignedInteger, writeBuffer, padDec, crlf]
  rw [hshape]
  unfold readRawLogEntry
  rw [readEncodedLength_round 42 5 _ (by omega) (by decide)]
  exact h5

/-! Theorems: well-formed log states and the append/get round-trip. -/

theorem entriesBlob_nil : entriesBlob [] = [] := rfl

theorem entriesBlob_cons (e : Entry) (es : List Entry) :
    entriesBlob (e :: es) = entryRecBytes e ++ entriesBlob es := by
  simp [entriesBlob]

theorem entriesBlob_append (xs ys : List Entry) :
    entriesBlob (xs ++ ys) = entriesBlob xs ++ entriesBlob ys := by
  simp [entriesBlob]

theorem getElem?_some_lt {α : Type} (l : List α) (k : Nat) (a : α)
    (h : l[k]? = some a) : k < l.length := by
  by_contra hc
  rw [List.getElem?_eq_none_iff.mpr (by omega)] at h
  exact Option.noConfusion h

theorem file_drop_at_offset (hdr : List Nat) (ents : List Entry) (k : Nat) (e : Entry)
    (hk : ents[k]? = some e) :
    (hdr ++ entriesBlob ents).drop (entryOffset hdr.length ents k) =
      entryRecBytes e ++ entriesBlob (ents.drop (k + 1)) := by
  have hklt : k < ents.length := getElem?_some_lt ents k e hk
  have hsplit : ents = ents.take k ++ e :: ents.drop (k + 1) := by
    have h1 := (List.take_append_drop k ents).symm
    have h2 := List.drop_eq_getElem_cons hklt
    have h3 : ents[k] = e := by
      have := (List.getElem?_eq_some_getElem_iff ents k hklt).mpr trivial
      rw [hk] at this
      exact (Option.some.injEq _ _).mp this.symm
    rw [h2, h3] at h1
    exact h1
  have hfile : hdr ++ entriesBlob ents =
      (hdr ++ entriesBlob (ents.take k)) ++
        (entryRecBytes e ++ entriesBlob (ents.drop (k + 1))) := by
    conv_lhs => rw [hsplit]
    rw [entriesBlob_append, entriesBlob_cons]
    simp [List.append_assoc]
  rw [hfile]
  rw [show entryOffset hdr.length ents k = (hdr ++ entriesBlob (ents.take k)).length from by
    simp [entryOffset]]
  exact List.drop_left _ _

theorem setSlot_get_self (slots : List Nat) (k v : Nat) : (setSlot slots k v)[k]? = some v := by
  unfold setSlot
  apply List.getElem?_set_self
  simp only [List.length_append, List.length_replicate]
  omega

theorem setSlot_get_other (slots : List Nat) (k v j : Nat) (hj : j ≠ k)
    (hlt : j < slots.length) : (setSlot slots k v)[j]? = slots[j]? := by
  unfold setSlot
  rw [List.getElem?_set_ne (by omega)]
  exact List.getElem?_append_left hlt

theorem raftLogAppend_none_status (log : RaftLog) (e : Entry) :
    (RaftLogAppend none log e).1 = RRStatus.ok := by
  simp [RaftLogAppend, RaftLogWriteEntry, updateIndex]

theorem raftLogAppend_none_state (log : RaftLog) (e : Entry) :
    (RaftLogAppend none log e).2 =
      {log with file := log.file ++ entryRecBytes e,
                index := log.index + 1,
                num_entries := log.num_entries + 1,
                idxslots := setSlot log.idxslots (log.index + 1 - log.snapshot_last_idx)
                  log.file.length} := by
  simp [RaftLogAppend, RaftLogWriteEntry, updateIndex, entryRecBytes, List.append_assoc]

theorem wfLog_get (log : RaftLog) (hdr : List Nat) (ents : List Entry)
    (hw : WfLog log hdr ents) :
    ∀ k, k < ents.length → RaftLogGet log (log.snapshot_last_idx + 1 + k) = ents[k]? := by
  obtain ⟨hh, hfile, hnum, hidx, hslots, hents⟩ := hw
  intro k hk
  obtain ⟨e, he⟩ : ∃ x, ents[k]? = some x :=
    ⟨ents[k], (List.getElem?_eq_some_getElem_iff ents k hk).mpr trivial⟩
  have hmem : e ∈ ents := List.getElem?_mem he
  have hofs : seekEntry log (log.snapshot_last_idx + 1 + k) = entryOffset hdr.length ents k := by
    unfold seekEntry
    rw [if_neg (by omega), if_neg (by omega)]
    rw [show log.snapshot_last_idx + 1 + k - log.snapshot_last_idx = k + 1 by omega]
    rw [hslots k hk]
  have hpos : 0 < entryOffset hdr.length ents k := by
    unfold entryOffset
    omega
  unfold RaftLogGet
  rw [hofs, if_neg (by omega), hfile, file_drop_at_offset hdr ents k e he]
  rw [entry_record_round e _ (hents e hmem)]
  show parseRaftLogEntry [strB "ENTRY", natDec e.term, natDec e.id, natDec e.type, e.data] =
    ents[k]?
  rw [parseRaftLogEntry_round e.term e.id e.type e.data, he]

theorem wfLog_append (log : RaftLog) (hdr : List Nat) (ents : List Entry) (e : Entry)
    (hw : WfLog log hdr ents) (he : WfEntry e) :
    WfLog (RaftLogAppend none log e).2 hdr (ents ++ [e]) := by
  obtain ⟨hh, hfile, hnum, hidx, hslots, hents⟩ := hw
  rw [raftLogAppend_none_state]
  refine ⟨hh, ?_, ?_, ?_, ?_, ?_⟩
  · dsimp only
    rw [hfile, entriesBlob_append, entriesBlob_cons, entriesBlob_nil]
    simp [List.append_assoc]
  · dsimp only
    simp [hnum]
  · dsimp only
    simp
    omega
  · dsimp only
    intro k hk
    simp only [List.length_append, List.length_singleton] at hk
    by_cases hke : k < ents.length
    · have hb : k + 1 < log.idxslots.length :=
        getElem?_some_lt log.idxslots (k + 1) _ (hslots k hke)
      rw [setSlot_get_other _ _ _ _ (by omega) hb]
      rw [hslots k hke]
      congr 1
      unfold entryOffset
      rw [List.take_append_of_le_length (by omega)]
    · have hkeq : k = ents.length := by omega
      subst hkeq
      rw [show ents.length + 1 = log.index + 1 - log.snapshot_last_idx by omega]
      rw [setSlot_get_self]
      congr 1
      unfold entryOffset
      rw [show (ents ++ [e]).take ents.length = ents from List.take_left ents [e]]
      rw [hfile]
      simp
  · intro x hx
    rcases List.mem_append.mp hx with h | h
    · exact hents x h
    · simp only [List.mem_singleton] at h
      subst h
      exact he

/-- C1: from any well-formed log state, a successful append leaves the state
well-formed and RaftLogGet — served from the log file through the index
file, bypassing the cache — returns, for every live index, an entry whose
term, id, type and data equal the ones passed to append (the new index
included). -/
theorem c1_append_get_roundtrip (log : RaftLog) (hdr : List Nat) (ents : List Entry)
    (e : Entry) (hw : WfLog log hdr ents) (he : WfEntry e) :
    (RaftLogAppend none log e).1 = RRStatus.ok ∧
    WfLog (RaftLogAppend none log e).2 hdr (ents ++ [e]) ∧
    ∀ k, k < ents.length + 1 →
      RaftLogGet (RaftLogAppend none log e).2 (log.snapshot_last_idx + 1 + k) =
        (ents ++ [e])[k]? := by
  have hw2 := wfLog_append log hdr ents e hw he
  refine ⟨raftLogAppend_none_status log e, hw2, ?_⟩
  intro k hk
  have hsnap : (RaftLogAppend none log e).2.snapshot_last_idx = log.snapshot_last_idx := by
    rw [raftLogAppend_none_state]
  have hget := wfLog_get _ hdr (ents ++ [e]) hw2 k (by simp; omega)
  rw [hsnap] at hget
  exact hget

/-- C1 witness: appending one concrete entry to the freshly created log. -/
theorem c1_append_get_roundtrip_witness :
    WfLog (RaftLogCreate dbidW 0 0) (RaftLogCreate dbidW 0 0).file [] ∧
    WfEntry ⟨1, 100, 2, strB "x"⟩ ∧
    ((RaftLogAppend none (RaftLogCreate dbidW 0 0) ⟨1, 100, 2, strB "x"⟩).1 = RRStatus.ok ∧
     WfLog (RaftLogAppend none (RaftLogCreate dbidW 0 0) ⟨1, 100, 2, strB "x"⟩).2
       (RaftLogCreate dbidW 0 0).file ([] ++ [⟨1, 100, 2, strB "x"⟩]) ∧
     ∀ k, k < ([] : List Entry).length + 1 →
       RaftLogGet (RaftLogAppend none (RaftLogCreate dbidW 0 0) ⟨1, 100, 2, strB "x"⟩).2
         ((RaftLogCreate dbidW 0 0).snapshot_last_idx + 1 + k) =
         (([] : List Entry) ++ [⟨1, 100, 2, strB "x"⟩])[k]?) :=
  ⟨⟨by decide, by simp [entriesBlob], rfl, rfl, fun k hk => absurd hk (by simp), by simp⟩,
   ⟨by decide, by decide, by decide, by decide⟩,
   c1_append_get_roundtrip (RaftLogCreate dbidW 0 0) (RaftLogCreate dbidW 0 0).file []
     ⟨1, 100, 2, strB "x"⟩
     ⟨by decide, by simp [entriesBlob], rfl, rfl, fun k hk => absurd hk (by simp), by simp⟩
     ⟨by decide, by decide, by decide, by decide⟩⟩

/-! Theorems: suffix deletion. -/

theorem entryRecBytes_length_pos (e : Entry) : 0 < (entryRecBytes e).length := by
  simp [entryRecBytes, writeBegin]

theorem isEntryTag_entry (rest : List (List Nat)) :
    isEntryTag (strB "ENTRY" :: rest) = true := rfl

theorem deleteScan_blob (es : List Entry) : ∀ fuel, (entriesBlob es).length < fuel →
    (∀ e ∈ es, WfEntry e) → deleteScan fuel (entriesBlob es) = RRStatus.ok := by
  induction es with
  | nil =>
    intro fuel hf _
    cases fuel with
    | zero => omega
    | succ f => rfl
  | cons e es ih =>
    intro fuel hf hwf
    rw [entriesBlob_cons] at hf ⊢
    cases fuel with
    | zero => omega
    | succ f =>
      have hrec := entryRecBytes_length_pos e
      simp only [deleteScan]
      rw [entry_record_round e _ (hwf e (by simp))]
      show (if isEntryTag [strB "ENTRY", natDec e.term, natDec e.id, natDec e.type, e.data]
          then
            match parseRaftLogEntry [strB "ENTRY", natDec e.term, natDec e.id,
                natDec e.type, e.data] with
            | none => RRStatus.error
            | some _ => deleteScan f (entriesBlob es)
          else deleteScan f (entriesBlob es)) = RRStatus.ok
      rw [if_pos (isEntryTag_entry _)]
      rw [parseRaftLogEntry_round e.term e.id e.type e.data]
      exact ih f (by simp [List.length_append] at hf; omega) (fun x hx => hwf x (by simp [hx]))

theorem wfLog_delete (log : RaftLog) (hdr : List Nat) (ents : List Entry) (k : Nat)
    (hw : WfLog log hdr ents) (h1 : log.snapshot_last_idx < k) (h2 : k ≤ log.index) :
    (RaftLogDelete log k).1 = RRStatus.ok ∧
    (RaftLogDelete log k).2.index = k - 1 ∧
    (RaftLogDelete log k).2.num_entries = log.num_entries - (log.index + 1 - k) ∧
    (RaftLogDelete log k).2.snapshot_last_idx = log.snapshot_last_idx ∧
    WfLog (RaftLogDelete log k).2 hdr (ents.take (k - 1 - log.snapshot_last_idx)) := by
  obtain ⟨hh, hfile, hnum, hidx, hslots, hents⟩ := hw
  have hmlt : k - 1 - log.snapshot_last_idx < ents.length := by omega
  obtain ⟨e, he⟩ : ∃ x, ents[k - 1 - log.snapshot_last_idx]? = some x :=
    ⟨ents[k - 1 - log.snapshot_last_idx],
     (List.getElem?_eq_some_getElem_iff ents _ hmlt).mpr trivial⟩
  have hofs : seekEntry log k =
      entryOffset hdr.length ents (k - 1 - log.snapshot_last_idx) := by
    unfold seekEntry
    rw [if_neg (by omega), if_neg (by omega)]
    rw [show k - log.snapshot_last_idx = (k - 1 - log.snapshot_last_idx) + 1 by omega]
    rw [hslots _ hmlt]
  have hpos : 0 < entryOffset hdr.length ents (k - 1 - log.snapshot_last_idx) := by
    unfold entryOffset
    omega
  have hdropfile : log.file.drop (entryOffset hdr.length ents (k - 1 - log.snapshot_last_idx)) =
      entriesBlob (ents.drop (k - 1 - log.snapshot_last_idx)) := by
    rw [hfile, file_drop_at_offset hdr ents _ e he, ← entriesBlob_cons]
    congr 1
    rw [List.drop_eq_getElem_cons hmlt]
    congr 1
    have := (List.getElem?_eq_some_getElem_iff ents _ hmlt).mpr trivial
    rw [he] at this
    exact (Option.some.injEq _ _).mp this

  have hscan : deleteScan
      ((log.file.drop (entryOffset hdr.length ents (k - 1 - log.snapshot_last_idx))).length + 1)
      (log.file.drop (entryOffset hdr.length ents (k - 1 - log.snapshot_last_idx))) =
      RRStatus.ok := by
    rw [hdropfile]
    exact deleteScan_blob _ _ (by omega) (fun x hx => hents x (List.mem_of_mem_drop hx))
  have htakefile : log.file.take (entryOffset hdr.length ents (k - 1 - log.snapshot_last_idx)) =
      hdr ++ entriesBlob (ents.take (k - 1 - log.snapshot_last_idx)) := by
    rw [hfile]
    rw [show entriesBlob ents = entriesBlob (ents.take (k - 1 - log.snapshot_last_idx)) ++
        entriesBlob (ents.drop (k - 1 - log.snapshot_last_idx)) from by
      rw [← entriesBlob_append, List.take_append_drop]]
    rw [show entryOffset hdr.length ents (k - 1 - log.snapshot_last_idx) =
        (hdr ++ entriesBlob (ents.take (k - 1 - log.snapshot_last_idx))).length from by
      simp [entryOffset]]
    rw [← List.append_assoc]
    exact List.take_left _ _
  have hstate : RaftLogDelete log k =
      (RRStatus.ok,
       {log with file := log.file.take (entryOffset hdr.length ents (k - 1 - log.snapshot_last_idx)),
                 num_entries := log.num_entries - (log.index + 1 - k),
                 index := k - 1}) := by
    unfold RaftLogDelete
    dsimp only
    rw [hofs, if_neg (by omega), hscan]
  rw [hstate]
  have hlent : (ents.take (k - 1 - log.snapshot_last_idx)).length =
      k - 1 - log.snapshot_last_idx := by
    rw [List.length_take]
    omega
  refine ⟨rfl, rfl, rfl, rfl, hh, ?_, ?_, ?_, ?_, ?_⟩
  · dsimp only
    exact htakefile
  · dsimp only
    rw [hlent]
    omega
  · dsimp only
    rw [hlent]
    omega
  · dsimp only
    intro j hj
    rw [hlent] at hj
    rw [hslots j (by omega)]
    congr 1
    unfold entryOffset
    rw [List.take_take]
    rw [show min j (k - 1 - log.snapshot_last_idx) = j by omega]
  · intro x hx
    exact hents x (List.mem_of_mem_take hx)

/-- C6: for snapshot_last_idx < k ≤ index on a well-formed log,
RaftLogDelete(k) succeeds with index = k − 1 afterwards and num_entries
lowered by the number of deleted entries (old index − k + 1), and a
subsequent append of any entry succeeds and produces that entry at index k,
where RaftLogGet returns it. -/
theorem c6_delete_suffix_append (log : RaftLog) (hdr : List Nat) (ents : List Entry)
    (k : Nat) (hw : WfLog log hdr ents) (h1 : log.snapshot_last_idx < k)
    (h2 : k ≤ log.index) :
    (RaftLogDelete log k).1 = RRStatus.ok ∧
    (RaftLogDelete log k).2.index = k - 1 ∧
    (RaftLogDelete log k).2.num_entries = log.num_entries - (log.index - k + 1) ∧
    ∀ e, WfEntry e →
      (RaftLogAppend none (RaftLogDelete log k).2 e).1 = RRStatus.ok ∧
      (RaftLogAppend none (RaftLogDelete log k).2 e).2.index = k ∧
      RaftLogGet (RaftLogAppend none (RaftLogDelete log k).2 e).2 k = some e := by
  obtain ⟨hok, hidx2, hnum2, hsnap2, hw2⟩ := wfLog_delete log hdr ents k hw h1 h2
  refine ⟨hok, hidx2, ?_, ?_⟩
  · rw [hnum2]
    congr 1
    omega
  · intro e he
    have hidxa : (RaftLogAppend none (RaftLogDelete log k).2 e).2.index = k := by
      rw [raftLogAppend_none_state]
      dsimp only
      rw [hidx2]
      omega
    refine ⟨raftLogAppend_none_status _ e, hidxa, ?_⟩
    have hwa := wfLog_append _ hdr _ e hw2 he
    have hlent : (ents.take (k - 1 - log.snapshot_last_idx)).length =
        k - 1 - log.snapshot_last_idx := by
      obtain ⟨_, _, hnum, hidx, _, _⟩ := hw
      rw [List.length_take]
      omega
    have hget := wfLog_get _ hdr _ hwa (k - 1 - log.snapshot_last_idx)
      (by simp [hlent])
    have hsnapa : (RaftLogAppend none (RaftLogDelete log k).2 e).2.snapshot_last_idx =
        log.snapshot_last_idx := by
      rw [raftLogAppend_none_state]
      dsimp only
      rw [hsnap2]
    rw [hsnapa] at hget
    rw [show log.snapshot_last_idx + 1 + (k - 1 - log.snapshot_last_idx) = k by omega] at hget
    rw [hget]
    have hcat := List.getElem?_concat_length (ents.take (k - 1 - log.snapshot_last_idx)) e
    rw [hlent] at hcat
    exact hcat

/-- C6 witness: deleting index 2 of the concrete two-entry log, then
appending any well-formed entry lands at index 2. -/
theorem c6_delete_suffix_append_witness :
    WfLog logW2 (RaftLogCreate dbidW 0 0).file
      [⟨1, 100, 2, strB "x"⟩, ⟨1, 101, 2, strB "y"⟩] ∧
    logW2.snapshot_last_idx < 2 ∧ 2 ≤ logW2.index ∧
    ((RaftLogDelete logW2 2).1 = RRStatus.ok ∧
     (RaftLogDelete logW2 2).2.index = 2 - 1 ∧
     (RaftLogDelete logW2 2).2.num_entries = logW2.num_entries - (logW2.index - 2 + 1) ∧
     ∀ e, WfEntry e →
       (RaftLogAppend none (RaftLogDelete logW2 2).2 e).1 = RRStatus.ok ∧
       (RaftLogAppend none (RaftLogDelete logW2 2).2 e).2.index = 2 ∧
       RaftLogGet (RaftLogAppend none (RaftLogDelete logW2 2).2 e).2 2 = some e) :=
  ⟨by decide, by decide, by decide,
   c6_delete_suffix_append logW2 (RaftLogCreate dbidW 0 0).file
     [⟨1, 100, 2, strB "x"⟩, ⟨1, 101, 2, strB "y"⟩] 2 (by decide) (by decide) (by decide)⟩

/-! Theorems: the in-place header rewrite. -/

theorem padDecInt_length_11 (v : Int) (h1 : -(10 ^ 10 : Int) < v) (h2 : v < 10 ^ 11) :
    (padDecInt 11 v).length = 11 := by
  unfold padDecInt
  by_cases hv : v < 0
  · rw [if_pos hv, if_neg (by omega : (11 : Nat) ≠ 0)]
    have hd : (natDec (-v).toNat).length ≤ 10 :=
      natDec_len_le 10 (-v).toNat (by omega) (by omega)
    simp only [List.length_cons, List.length_append, List.length_replicate]
    omega
  · rw [if_neg hv]
    exact padDec_length 11 v.toNat (by omega)
      (natDec_len_le 11 v.toNat (by omega) (by omega))

theorem writeLogHeader_length_eq (l1 l2 : RaftLog) (hdb : l1.dbid = l2.dbid)
    (hb1 : HdrBounds l1) (hb2 : HdrBounds l2) :
    (writeLogHeader l1).length = (writeLogHeader l2).length := by
  obtain ⟨h11, h12, h13, h14, h15⟩ := hb1
  obtain ⟨h21, h22, h23, h24, h25⟩ := hb2
  have hu : ∀ v : Nat, v < 10 ^ 20 → (padDec 20 v).length = 20 := fun v hv =>
    padDec_length 20 v (by omega) (natDec_len_le 20 v hv (by omega))
  simp only [writeLogHeader, writeBuffer, writeUnsignedInteger, writeInteger, crlf,
    List.length_append, List.length_cons, hdb, hu _ h11, hu _ h12, hu _ h13,
    hu _ h21, hu _ h22, hu _ h23, padDecInt_length_11 _ h14 h15,
    padDecInt_length_11 _ h24 h25]

theorem updateLogHeader_frame (log : RaftLog) (rest : List Nat) (l2 : RaftLog)
    (hfile2 : l2.file = writeLogHeader log ++ rest)
    (hlen : (writeLogHeader l2).length = (writeLogHeader log).length) :
    (updateLogHeader l2).file = writeLogHeader l2 ++ rest := by
  unfold updateLogHeader
  dsimp only
  rw [hfile2, hlen, List.drop_left]

/-- C8: a header rewrite triggered by RaftLogSetTerm or RaftLogSetVote (with
in-range field values and the same dbid) keeps the log file's total byte
length unchanged and leaves every byte past the header — all entry records —
unchanged, because the zero-padded fixed-width header fields serialize to a
constant byte count. -/
theorem c8_header_rewrite_frame (log : RaftLog) (rest : List Nat)
    (t2 : Nat) (v2 v3 : Int)
    (hfile : log.file = writeLogHeader log ++ rest)
    (hb : HdrBounds log) (ht2 : t2 < 10 ^ 20)
    (hv2a : -(10 ^ 10 : Int) < v2) (hv2b : v2 < 10 ^ 11)
    (hv3a : -(10 ^ 10 : Int) < v3) (hv3b : v3 < 10 ^ 11) :
    ((RaftLogSetTerm log t2 v2).1 = RRStatus.ok ∧
     (RaftLogSetTerm log t2 v2).2.file.length = log.file.length ∧
     (RaftLogSetTerm log t2 v2).2.file.drop (writeLogHeader log).length = rest) ∧
    ((RaftLogSetVote log v3).1 = RRStatus.ok ∧
     (RaftLogSetVote log v3).2.file.length = log.file.length ∧
     (RaftLogSetVote log v3).2.file.drop (writeLogHeader log).length = rest) := by
  obtain ⟨hb1, hb2, hb3, hb4, hb5⟩ := hb
  constructor
  · have hlen : (writeLogHeader {log with term := t2, vote := v2}).length =
        (writeLogHeader log).length :=
      writeLogHeader_length_eq _ log rfl ⟨hb1, hb2, ht2, hv2a, hv2b⟩
        ⟨hb1, hb2, hb3, hb4, hb5⟩
    have hframe := updateLogHeader_frame log rest {log with term := t2, vote := v2}
      hfile hlen
    refine ⟨rfl, ?_, ?_⟩
    · show (updateLogHeader {log with term := t2, vote := v2}).file.length = log.file.length
      rw [hframe, List.length_append, hlen, hfile, List.length_append]
    · show (updateLogHeader {log with term := t2, vote := v2}).file.drop
        (writeLogHeader log).length = rest
      rw [hframe, ← hlen, List.drop_left]
  · have hlen : (writeLogHeader {log with vote := v3}).length =
        (writeLogHeader log).length :=
      writeLogHeader_length_eq _ log rfl ⟨hb1, hb2, hb3, hv3a, hv3b⟩
        ⟨hb1, hb2, hb3, hb4, hb5⟩
    have hframe := updateLogHeader_frame log rest {log with vote := v3} hfile hlen
    refine ⟨rfl, ?_, ?_⟩
    · show (updateLogHeader {log with vote := v3}).file.length = log.file.length
      rw [hframe, List.length_append, hlen, hfile, List.length_append]
    · show (updateLogHeader {log with vote := v3}).file.drop
        (writeLogHeader log).length = rest
      rw [hframe, ← hlen, List.drop_left]

/-- C8 witness: set_term(7, 3) and set_vote(−1) on the concrete one-entry
log, whose file is its header followed by one entry record. -/
theorem c8_header_rewrite_frame_witness :
    logW1.file = writeLogHeader logW1 ++ entryRecBytes ⟨1, 100, 2, strB "x"⟩ ∧
    HdrBounds logW1 ∧
    (((RaftLogSetTerm logW1 7 3).1 = RRStatus.ok ∧
      (RaftLogSetTerm logW1 7 3).2.file.length = logW1.file.length ∧
      (RaftLogSetTerm logW1 7 3).2.file.drop (writeLogHeader logW1).length =
        entryRecBytes ⟨1, 100, 2, strB "x"⟩) ∧
     ((RaftLogSetVote logW1 (-1)).1 = RRStatus.ok ∧
      (RaftLogSetVote logW1 (-1)).2.file.length = logW1.file.length ∧
      (RaftLogSetVote logW1 (-1)).2.file.drop (writeLogHeader logW1).length =
        entryRecBytes ⟨1, 100, 2, strB "x"⟩)) :=
  ⟨by decide, ⟨by decide, by decide, by decide, by decide, by decide⟩,
   c8_header_rewrite_frame logW1 (entryRecBytes ⟨1, 100, 2, strB "x"⟩) 7 3 (-1)
     (by decide) ⟨by decide, by decide, by decide, by decide, by decide⟩
     (by decide) (by decide) (by decide) (by decide) (by decide)⟩

/-! Theorems: header parsing and bulk load. -/

theorem cstr_idem (s : List Nat) : cstr (cstr s) = cstr s :=
  List.takeWhile_idem

theorem strtolM_digits (s t : List Nat) (hs : s ≠ []) (hd : ∀ b ∈ s, isDigit b = true)
    (ht : startsWithDigit t = false) :
    strtolM (s ++ t) = (((s.foldl (fun acc b => acc * 10 + (b - 48)) 0 : Nat) : Int), t) := by
  obtain ⟨b, u, rfl⟩ : ∃ b u, s = b :: u := by
    cases s with
    | nil => exact absurd rfl hs
    | cons b u => exact ⟨b, u, rfl⟩
  have hb : 48 ≤ b ∧ b ≤ 57 := (isDigit_iff b).mp (hd b (by simp))
  have hskip : skipWs (b :: (u ++ t)) = b :: (u ++ t) := by
    unfold skipWs
    rw [List.dropWhile_cons_of_neg]
    simp only [isSpaceB, Bool.or_eq_true, decide_eq_true_eq, Bool.and_eq_true, not_or,
      not_and]
    omega
  show strtolM (b :: (u ++ t)) = _
  unfold strtolM
  rw [hskip]
  dsimp only
  split
  · rename_i heq
    injection heq with h1 _
    omega
  · rename_i heq
    injection heq with h1 _
    omega
  · rw [if_pos (by simp [startsWithDigit, isDigit]; omega)]
    have h1 := digitsVal_all_digits (b :: u) t 0 hd ht
    have h2 : digitsVal (b :: (u ++ t)) 0 =
        (List.foldl (fun acc b => acc * 10 + (b - 48)) 0 (b :: u), t) := by
      simpa using h1
    rw [h2]

theorem strtolM_neg (s t : List Nat) (hs : s ≠ []) (hd : ∀ b ∈ s, isDigit b = true)
    (ht : startsWithDigit t = false) :
    strtolM ((45 :: s) ++ t) =
      (-((s.foldl (fun acc b => acc * 10 + (b - 48)) 0 : Nat) : Int), t) := by
  have hskip : skipWs (45 :: (s ++ t)) = 45 :: (s ++ t) := by
    unfold skipWs
    rw [List.dropWhile_cons_of_neg]
    simp [isSpaceB]
  have hdig : startsWithDigit (s ++ t) = true := by
    obtain ⟨b, u, rfl⟩ : ∃ b u, s = b :: u := by
      cases s with
      | nil => exact absurd rfl hs
      | cons b u => exact ⟨b, u, rfl⟩
    simpa [startsWithDigit] using hd b (by simp)
  show strtolM (45 :: (s ++ t)) = _
  unfold strtolM
  rw [hskip]
  dsimp only
  rw [if_pos hdig]
  rw [digitsVal_all_digits s t 0 hd ht]

theorem parseFieldInt_padDecInt (v : Int) : parseFieldInt (padDecInt 11 v) = some v := by
  by_cases hv : v < 0
  · have hpay : padDecInt 11 v =
        45 :: (List.replicate (11 - 1 - (natDec (-v).toNat).length) 48 ++ natDec (-v).toNat) := by
      unfold padDecInt
      rw [if_pos hv, if_neg (by omega : (11 : Nat) ≠ 0)]
    set s := List.replicate (11 - 1 - (natDec (-v).toNat).length) 48 ++ natDec (-v).toNat
      with hsdef
    have hsd : ∀ b ∈ s, isDigit b = true := by
      intro b hb
      rw [hsdef] at hb
      rcases List.mem_append.mp hb with h | h
      · simp only [List.mem_replicate] at h
        rw [h.2, isDigit_iff]
        omega
      · exact natDec_digits _ b h
    have hsnn : s ≠ [] := by
      rw [hsdef]
      intro h
      rcases List.append_eq_nil.mp h with ⟨_, h2⟩
      exact natDec_ne_nil _ h2
    unfold parseFieldInt
    rw [hpay]
    rw [cstr_no_nul _ (by
      intro b hb
      simp only [List.mem_cons] at hb
      rcases hb with rfl | hb
      · omega
      · have := (isDigit_iff b).mp (hsd b hb)
        omega)]
    have hneg := strtolM_neg s [] hsnn hsd rfl
    rw [List.append_nil] at hneg
    rw [hneg]
    have hfold : s.foldl (fun acc b => acc * 10 + (b - 48)) 0 = (-v).toNat := by
      rw [hsdef, List.foldl_append, foldl_zeros]
      simpa using foldl_natDec (-v).toNat 0
    rw [hfold]
    show (if ([] : List Nat) = [] then some (-(((-v).toNat : Nat) : Int)) else none) = some v
    rw [if_pos rfl]
    exact congrArg some (by omega)
  · have hpay : padDecInt 11 v = padDec 11 v.toNat := by
      unfold padDecInt
      rw [if_neg hv]
    unfold parseFieldInt
    rw [hpay]
    rw [cstr_no_nul _ (fun b hb => by
      have := (isDigit_iff b).mp (padDec_digits 11 v.toNat b hb)
      omega)]
    have hs := strtolM_digits (padDec 11 v.toNat) [] (padDec_ne_nil _ _)
      (padDec_digits _ _) rfl
    rw [List.append_nil] at hs
    rw [hs]
    show (if ([] : List Nat) = [] then
        some ((((padDec 11 v.toNat).foldl (fun acc b => acc * 10 + (b - 48)) 0 : Nat) : Int))
      else none) = some v
    rw [if_pos rfl, foldl_padDec]
    exact congrArg some (by omega)

theorem header_record_round (l : RaftLog) (rest : List Nat)
    (hb : HdrBounds l) (hdb : (cstr l.dbid).length ≤ RAFT_DBID_LEN) :
    readRawLogEntry (writeLogHeader l ++ rest) =
      some ([strB "RAFTLOG", padDec 4 RAFTLOG_VERSION, cstr l.dbid,
             padDec 20 l.snapshot_last_term, padDec 20 l.snapshot_last_idx,
             padDec 20 l.term, padDecInt 11 l.vote], rest) := by
  obtain ⟨hb1, hb2, hb3, hb4, hb5⟩ := hb
  have hu20 : ∀ v : Nat, v < 10 ^ 20 → (padDec 20 v).length = 20 := fun v hv =>
    padDec_length 20 v (by omega) (natDec_len_le 20 v hv (by omega))
  have hdbL : (natDec (cstr l.dbid).length).length + 3 ≤ 127 := by
    have := natDec_len_le 2 (cstr l.dbid).length (by unfold RAFT_DBID_LEN at hdb; omega)
      (by omega)
    omega
  have h0 : readElements 0 rest = some ([], rest) := rfl
  have h1 : readElements 1 (writeBuffer (padDecInt 11 l.vote) ++ rest) =
      some ([padDecInt 11 l.vote], rest) :=
    readElements_cons 0 _ _ _ _ (by rw [padDecInt_length_11 _ hb4 hb5]; decide) h0
  have h2 : readElements 2 (writeBuffer (padDec 20 l.term) ++
      (writeBuffer (padDecInt 11 l.vote) ++ rest)) =
      some ([padDec 20 l.term, padDecInt 11 l.vote], rest) :=
    readElements_cons 1 _ _ _ _ (by rw [hu20 _ hb3]; decide) h1
  have h3 : readElements 3 (writeBuffer (padDec 20 l.snapshot_last_idx) ++
      (writeBuffer (padDec 20 l.term) ++ (writeBuffer (padDecInt 11 l.vote) ++ rest))) =
      some ([padDec 20 l.snapshot_last_idx, padDec 20 l.term, padDecInt 11 l.vote], rest) :=
    readElements_cons 2 _ _ _ _ (by rw [hu20 _ hb2]; decide) h2
  have h4 : readElements 4 (writeBuffer (padDec 20 l.snapshot_last_term) ++
      (writeBuffer (padDec 20 l.snapshot_last_idx) ++ (writeBuffer (padDec 20 l.term) ++
        (writeBuffer (padDecInt 11 l.vote) ++ rest)))) =
      some ([padDec 20 l.snapshot_last_term, padDec 20 l.snapshot_last_idx,
             padDec 20 l.term, padDecInt 11 l.vote], rest) :=
    readElements_cons 3 _ _ _ _ (by rw [hu20 _ hb1]; decide) h3
  have h5 : readElements 5 (writeBuffer (cstr l.dbid) ++
      (writeBuffer (padDec 20 l.snapshot_last_term) ++
        (writeBuffer (padDec 20 l.snapshot_last_idx) ++ (writeBuffer (padDec 20 l.term) ++
          (writeBuffer (padDecInt 11 l.vote) ++ rest))))) =
      some ([cstr l.dbid, padDec 20 l.snapshot_last_term, padDec 20 l.snapshot_last_idx,
             padDec 20 l.term, padDecInt 11 l.vote], rest) :=
    readElements_cons 4 _ _ _ _ (by omega) h4
  have h6 : readElements 6 (writeBuffer (padDec 4 RAFTLOG_VERSION) ++
      (writeBuffer (cstr l.dbid) ++ (writeBuffer (padDec 20 l.snapshot_last_term) ++
        (writeBuffer (padDec 20 l.snapshot_last_idx) ++ (writeBuffer (padDec 20 l.term) ++
          (writeBuffer (padDecInt 11 l.vote) ++ rest)))))) =
      some ([padDec 4 RAFTLOG_VERSION, cstr l.dbid, padDec 20 l.snapshot_last_term,
             padDec 20 l.snapshot_last_idx, padDec 20 l.term, padDecInt 11 l.vote], rest) :=
    readElements_cons 5 _ _ _ _ (by decide) h5
  have h7 : readElements 7 (writeBuffer (strB "RAFTLOG") ++
      (writeBuffer (padDec 4 RAFTLOG_VERSION) ++ (writeBuffer (cstr l.dbid) ++
        (writeBuffer (padDec 20 l.snapshot_last_term) ++
          (writeBuffer (padDec 20 l.snapshot_last_idx) ++ (writeBuffer (padDec 20 l.term) ++
            (writeBuffer (padDecInt 11 l.vote) ++ rest))))))) =
      some ([strB "RAFTLOG", padDec 4 RAFTLOG_VERSION, cstr l.dbid,
             padDec 20 l.snapshot_last_term, padDec 20 l.snapshot_last_idx,
             padDec 20 l.term, padDecInt 11 l.vote], rest) :=
    readElements_cons 6 _ _ _ _ (by decide) h6
  have hshape : writeLogHeader l ++ rest =
      42 :: (natDec 7 ++ 13 :: 10 :: (writeBuffer (strB "RAFTLOG") ++
        (writeBuffer (padDec 4 RAFTLOG_VERSION) ++ (writeBuffer (cstr l.dbid) ++
          (writeBuffer (padDec 20 l.snapshot_last_term) ++
            (writeBuffer (padDec 20 l.snapshot_last_idx) ++ (writeBuffer (padDec 20 l.term) ++
              (writeBuffer (padDecInt 11 l.vote) ++ rest)))))))) := by
    simp [writeLogHeader, writeBegin, writeUnsignedInteger, writeInteger, writeBuffer, crlf]
  rw [hshape]
  unfold readRawLogEntry
  rw [readEncodedLength_round 42 7 _ (by omega) (by decide)]
  exact h7

theorem handleHeader_round (l0 l : RaftLog) (hdb : (cstr l.dbid).length ≤ RAFT_DBID_LEN) :
    handleHeader l0 [strB "RAFTLOG", padDec 4 RAFTLOG_VERSION, cstr l.dbid,
        padDec 20 l.snapshot_last_term, padDec 20 l.snapshot_last_idx,
        padDec 20 l.term, padDecInt 11 l.vote] =
      some {l0 with dbid := cstr l.dbid, snapshot_last_term := l.snapshot_last_term,
                    index := l.snapshot_last_idx, snapshot_last_idx := l.snapshot_last_idx,
                    term := l.term, vote := l.vote} := by
  unfold handleHeader
  dsimp only
  rw [if_neg (by decide)]
  rw [parseField_padDec 4 RAFTLOG_VERSION]
  dsimp only
  rw [if_neg (by decide)]
  rw [if_neg (by rw [cstr_idem]; exact not_lt.mpr hdb)]
  rw [parseField_padDec 20 l.snapshot_last_term, parseField_padDec 20 l.snapshot_last_idx,
    parseField_padDec 20 l.term, parseFieldInt_padDecInt l.vote]
  dsimp only
  rw [cstr_idem]

theorem loadLoop_step (fuel : Nat) (log : RaftLog) (e : Entry) (rest : List Nat)
    (ofs ret : Nat) (he : WfEntry e) :
    loadLoop (fuel + 1) log (entryRecBytes e ++ rest) ofs ret =
      loadLoop fuel (updateIndex {log with index := log.index + 1} (log.index + 1) ofs)
        rest (ofs + ((entryRecBytes e ++ rest).length - rest.length)) (ret + 1) := by
  simp only [loadLoop]
  rw [entry_record_round e _ he]
  show (if ([strB "ENTRY", natDec e.term, natDec e.id, natDec e.type, e.data] :
        List (List Nat)).length = 0 then ((ret : Int), log)
      else
        if isEntryTag [strB "ENTRY", natDec e.term, natDec e.id, natDec e.type, e.data] then
          match parseRaftLogEntry [strB "ENTRY", natDec e.term, natDec e.id,
              natDec e.type, e.data] with
          | none => ((-1 : Int), log)
          | some _ =>
            loadLoop fuel (updateIndex {log with index := log.index + 1} (log.index + 1) ofs)
              rest (ofs + ((entryRecBytes e ++ rest).length - rest.length)) (ret + 1)
        else ((-1 : Int), log)) =
      loadLoop fuel (updateIndex {log with index := log.index + 1} (log.index + 1) ofs)
        rest (ofs + ((entryRecBytes e ++ rest).length - rest.length)) (ret + 1)
  rw [if_neg (by simp), if_pos (isEntryTag_entry _)]
  rw [parseRaftLogEntry_round e.term e.id e.type e.data]

theorem loadLoop_stop (fuel : Nat) (log : RaftLog) (tail : List Nat) (ofs ret : Nat)
    (ht : readFailsOrEmpty tail) :
    loadLoop (fuel + 1) log tail ofs ret = ((ret : Int), log) := by
  simp only [loadLoop]
  rcases ht with hnone | ⟨r, hsome⟩
  · rw [hnone]
  · rw [hsome]
    rfl

theorem loadLoop_stop_bad (fuel : Nat) (log : RaftLog) (tail : List Nat) (ofs ret : Nat)
    (hbad : ∃ es2 r2, readRawLogEntry tail = some (es2, r2) ∧ es2 ≠ [] ∧
      (isEntryTag es2 = false ∨ parseRaftLogEntry es2 = none)) :
    loadLoop (fuel + 1) log tail ofs ret = (-1, log) := by
  obtain ⟨es2, r2, hsome, hne, hb⟩ := hbad
  simp only [loadLoop]
  rw [hsome]
  show (if es2.length = 0 then ((ret : Int), log)
    else if isEntryTag es2 then
      (match parseRaftLogEntry es2 with
       | none => ((-1 : Int), log)
       | some _ => loadLoop fuel (updateIndex {log with index := log.index + 1}
           (log.index + 1) ofs) r2 (ofs + (tail.length - r2.length)) (ret + 1))
    else ((-1 : Int), log)) = ((-1 : Int), log)
  rw [if_neg (by
    rw [List.length_eq_zero]
    exact hne)]
  by_cases htag : isEntryTag es2
  · rw [if_pos htag]
    rcases hb with hf | hp
    · rw [htag] at hf
      exact absurd hf (by simp)
    · rw [hp]
  · rw [if_neg htag]

theorem loadLoop_graceful (es : List Entry) : ∀ (fuel : Nat) (log : RaftLog)
    (tail : List Nat) (ofs ret : Nat),
    (∀ e ∈ es, WfEntry e) →
    (entriesBlob es ++ tail).length < fuel →
    readFailsOrEmpty tail →
    (loadLoop fuel log (entriesBlob es ++ tail) ofs ret).1 = (ret : Int) + es.length ∧
    (loadLoop fuel log (entriesBlob es ++ tail) ofs ret).2.index = log.index + es.length ∧
    (loadLoop fuel log (entriesBlob es ++ tail) ofs ret).2.num_entries = log.num_entries ∧
    (loadLoop fuel log (entriesBlob es ++ tail) ofs ret).2.snapshot_last_idx =
      log.snapshot_last_idx := by
  induction es with
  | nil =>
    intro fuel log tail ofs ret _ hf ht
    cases fuel with
    | zero => omega
    | succ f =>
      rw [entriesBlob_nil, List.nil_append, loadLoop_stop f log tail ofs ret ht]
      simp
  | cons e es ih =>
    intro fuel log tail ofs ret hwf hf ht
    cases fuel with
    | zero => omega
    | succ f =>
      have hshape : entriesBlob (e :: es) ++ tail =
          entryRecBytes e ++ (entriesBlob es ++ tail) := by
        rw [entriesBlob_cons, List.append_assoc]
      have hfless : (entriesBlob es ++ tail).length < f := by
        rw [hshape] at hf
        have := entryRecBytes_length_pos e
        simp only [List.length_append] at hf ⊢
        omega
      rw [hshape, loadLoop_step f log e (entriesBlob es ++ tail) ofs ret (hwf e (by simp))]
      obtain ⟨ha, hb2, hc, hd2⟩ := ih f
        (updateIndex {log with index := log.index + 1} (log.index + 1) ofs)
        tail (ofs + ((entryRecBytes e ++ (entriesBlob es ++ tail)).length -
          (entriesBlob es ++ tail).length)) (ret + 1)
        (fun x hx => hwf x (by simp [hx])) hfless ht
      refine ⟨?_, ?_, ?_, ?_⟩
      · rw [ha]
        simp only [List.length_cons]
        push_cast
        omega
      · rw [hb2]
        show log.index + 1 + es.length = log.index + (e :: es).length
        simp only [List.length_cons]
        omega
      · exact hc
      · exact hd2

theorem loadLoop_badtail (es : List Entry) : ∀ (fuel : Nat) (log : RaftLog)
    (tail : List Nat) (ofs ret : Nat),
    (∀ e ∈ es, WfEntry e) →
    (entriesBlob es ++ tail).length < fuel →
    (∃ es2 r2, readRawLogEntry tail = some (es2, r2) ∧ es2 ≠ [] ∧
      (isEntryTag es2 = false ∨ parseRaftLogEntry es2 = none)) →
    (loadLoop fuel log (entriesBlob es ++ tail) ofs ret).1 = -1 ∧
    (loadLoop fuel log (entriesBlob es ++ tail) ofs ret).2.index = log.index + es.length ∧
    (loadLoop fuel log (entriesBlob es ++ tail) ofs ret).2.num_entries = log.num_entries ∧
    (loadLoop fuel log (entriesBlob es ++ tail) ofs ret).2.snapshot_last_idx =
      log.snapshot_last_idx := by
  induction es with
  | nil =>
    intro fuel log tail ofs ret _ hf hbad
    cases fuel with
    | zero => omega
    | succ f =>
      rw [entriesBlob_nil, List.nil_append, loadLoop_stop_bad f log tail ofs ret hbad]
      simp
  | cons e es ih =>
    intro fuel log tail ofs ret hwf hf hbad
    cases fuel with
    | zero => omega
    | succ f =>
      have hshape : entriesBlob (e :: es) ++ tail =
          entryRecBytes e ++ (entriesBlob es ++ tail) := by
        rw [entriesBlob_cons, List.append_assoc]
      have hfless : (entriesBlob es ++ tail).length < f := by
        rw [hshape] at hf
        have := entryRecBytes_length_pos e
        simp only [List.length_append] at hf ⊢
        omega
      rw [hshape, loadLoop_step f log e (entriesBlob es ++ tail) ofs ret (hwf e (by simp))]
      obtain ⟨ha, hb2, hc, hd2⟩ := ih f
        (updateIndex {log with index := log.index + 1} (log.index + 1) ofs)
        tail (ofs + ((entryRecBytes e ++ (entriesBlob es ++ tail)).length -
          (entriesBlob es ++ tail).length)) (ret + 1)
        (fun x hx => hwf x (by simp [hx])) hfless hbad
      refine ⟨ha, ?_, hc, hd2⟩
      rw [hb2]
      show log.index + 1 + es.length = log.index + (e :: es).length
      simp only [List.length_cons]
      omega

/-- C5 counterexample: a valid header followed by one valid entry and then a
well-framed record with tag WRONG makes RaftLogLoadEntries report −1 — a
failure, not the success-with-clipping the claim states — and leaves
num_entries untouched rather than set to the count of prior entries. -/
theorem c5_load_counterexample :
    (RaftLogLoadEntries {logW1 with
        file := logW1.file ++ wrongTagRecW
        num_entries := 77}).1 = -1 ∧
    (RaftLogLoadEntries {logW1 with
        file := logW1.file ++ wrongTagRecW
        num_entries := 77}).2.num_entries = 77 ∧
    ((-1 : Int) < 0 ∧ (77 : Nat) ≠ 1) :=
  ⟨by rfl, by rfl, by decide, by decide⟩

/-- C5 amended: after a valid header, the load stops at the first record
whose framing fails to read (or that reads as zero elements) and reports
success with the count of the entries before it, setting num_entries to
that count when it is positive; but a well-framed record whose tag is not
ENTRY or whose numeric fields do not parse makes the load report failure
(−1) with num_entries left unchanged, index still reflecting the entries
parsed before the bad record. -/
theorem c5_load_clip (log lmeta : RaftLog) (es : List Entry) (tail : List Nat)
    (hfile : log.file = writeLogHeader lmeta ++ (entriesBlob es ++ tail))
    (hb : HdrBounds lmeta) (hdb : (cstr lmeta.dbid).length ≤ RAFT_DBID_LEN)
    (hes : ∀ e ∈ es, WfEntry e) :
    (readFailsOrEmpty tail →
      (RaftLogLoadEntries log).1 = (es.length : Int) ∧
      (RaftLogLoadEntries log).2.index = lmeta.snapshot_last_idx + es.length ∧
      (RaftLogLoadEntries log).2.num_entries =
        (if 0 < es.length then es.length else log.num_entries)) ∧
    ((∃ es2 r2, readRawLogEntry tail = some (es2, r2) ∧ es2 ≠ [] ∧
        (isEntryTag es2 = false ∨ parseRaftLogEntry es2 = none)) →
      (RaftLogLoadEntries log).1 = -1 ∧
      (RaftLogLoadEntries log).2.num_entries = log.num_entries ∧
      (RaftLogLoadEntries log).2.index = lmeta.snapshot_last_idx + es.length) := by
  constructor
  · intro ht
    obtain ⟨ha, hb2, hc, hd2⟩ := loadLoop_graceful es ((entriesBlob es ++ tail).length + 1)
      {log with
        dbid := cstr lmeta.dbid
        snapshot_last_term := lmeta.snapshot_last_term
        index := lmeta.snapshot_last_idx
        snapshot_last_idx := lmeta.snapshot_last_idx
        term := lmeta.term
        vote := lmeta.vote
        file := writeLogHeader lmeta ++ (entriesBlob es ++ tail)}
      tail ((writeLogHeader lmeta ++ (entriesBlob es ++ tail)).length -
        (entriesBlob es ++ tail).length) 0 hes (by omega) ht
    unfold RaftLogLoadEntries
    dsimp only
    rw [hfile]
    rw [header_record_round lmeta _ hb hdb]
    dsimp only
    rw [handleHeader_round _ lmeta hdb]
    dsimp only
    by_cases hlen : 0 < es.length
    · rw [if_pos (by rw [ha]; push_cast; omega)]
      refine ⟨by rw [ha]; push_cast; omega, ?_, ?_⟩
      · show _ = lmeta.snapshot_last_idx + es.length
        rw [hb2]
      · show _ = if 0 < es.length then es.length else log.num_entries
        rw [if_pos hlen, ha]
        push_cast
        omega
    · rw [if_neg (by rw [ha]; push_cast; omega)]
      refine ⟨by rw [ha]; push_cast; omega, ?_, ?_⟩
      · rw [hb2]
      · rw [hc, if_neg hlen]
  · intro hbad
    obtain ⟨ha, hb2, hc, hd2⟩ := loadLoop_badtail es ((entriesBlob es ++ tail).length + 1)
      {log with
        dbid := cstr lmeta.dbid
        snapshot_last_term := lmeta.snapshot_last_term
        index := lmeta.snapshot_last_idx
        snapshot_last_idx := lmeta.snapshot_last_idx
        term := lmeta.term
        vote := lmeta.vote
        file := writeLogHeader lmeta ++ (entriesBlob es ++ tail)}
      tail ((writeLogHeader lmeta ++ (entriesBlob es ++ tail)).length -
        (entriesBlob es ++ tail).length) 0 hes (by omega) hbad
    unfold RaftLogLoadEntries
    dsimp only
    rw [hfile]
    rw [header_record_round lmeta _ hb hdb]
    dsimp only
    rw [handleHeader_round _ lmeta hdb]
    dsimp only
    rw [if_neg (by rw [ha]; omega)]
    exact ⟨ha, hc, hb2⟩

/-- C5 witness: a fresh log whose file is a valid header, one entry record,
and a torn two-byte tail loads back exactly that one entry. -/
theorem c5_load_clip_witness :
    (RaftLogLoadEntries {RaftLogCreate dbidW 0 0 with
        file := writeLogHeader (RaftLogCreate dbidW 0 0) ++
          (entriesBlob [⟨1, 100, 2, strB "x"⟩] ++ [42, 53])}).1 =
      ((List.length [(⟨1, 100, 2, strB "x"⟩ : Entry)] : Nat) : Int) :=
  ((c5_load_clip
      {RaftLogCreate dbidW 0 0 with
        file := writeLogHeader (RaftLogCreate dbidW 0 0) ++
          (entriesBlob [⟨1, 100, 2, strB "x"⟩] ++ [42, 53])}
      (RaftLogCreate dbidW 0 0) [⟨1, 100, 2, strB "x"⟩] [42, 53]
      rfl (by unfold HdrBounds; decide) (by decide) (by decide)).1
    (Or.inl (by rfl))).1
